import Mathlib

/-!
Shallow embedding of the preprocessing pipeline of the namaco repository
(`tests/preprocess.py`: `StaticPreprocessor`, `DynamicPreprocessor`, and the
helper functions `normalize_number`, `is_hiragana`, `is_katakana`,
`get_character_type`), together with theorems about the specified behaviour.

Python dictionaries are modelled as insertion-ordered association lists, and
fallible code (dictionary indexing, `assert` statements, index errors) is
modelled with `Option`.  The external collaborators — the MeCab `tokenize`
function, the Unicode character predicates of `str`, and the iteration order
of a Python `set` — enter as explicit parameters.
-/

/-- The reserved unknown-token sentinel string (`UNK = '<UNK>'`). -/
def UNK : String := "<UNK>"

/-- The reserved padding sentinel string (`PAD = '<PAD>'`). -/
def PAD : String := "<PAD>"

/-- A Python `dict` from strings to ints, modelled as an insertion-ordered
association list.  Every dictionary built by the code keeps its keys pairwise
distinct, so the list length is the dictionary size. -/
abbrev Dict := List (String × Nat)

/-- Python `d[k]` as a partial lookup: the value at key `k`, if present. -/
def dlookup (d : Dict) (k : String) : Option Nat :=
  (d.find? (fun kv => kv.1 == k)).map (fun kv => kv.2)

/-- Python `k in d`. -/
def dcontains (d : Dict) (k : String) : Bool :=
  (dlookup d k).isSome

/-- Python `len(d)` (keys stay distinct, so the list length is the size). -/
def dlen (d : Dict) : Nat := d.length

/-- Python `d.get(k, v)`. -/
def dget (d : Dict) (k : String) (v : Nat) : Nat :=
  (dlookup d k).getD v

/-- Python `d[k] = v`: overwrite in place when the key exists, else append. -/
def dsetItem (d : Dict) (k : String) (v : Nat) : Dict :=
  if dcontains d k then d.map (fun kv => if kv.1 == k then (kv.1, v) else kv)
  else d ++ [(k, v)]

/-- The keys of a dictionary, in insertion order. -/
def keys (d : Dict) : List String := d.map Prod.fst

/-- The values of a dictionary, in insertion order. -/
def vals (d : Dict) : List Nat := d.map Prod.snd

/-- The characters matched by the regular expression of `normalize_number`:
the ASCII decimal digits `0`-`9` and the full-width digits `０`-`９`
(U+FF10 – U+FF19). -/
def isNormDigit (c : Char) : Bool :=
  (('0' ≤ c) && (c ≤ '9')) || ((0xFF10 ≤ c.toNat) && (c.toNat ≤ 0xFF19))

/-- `normalize_number`: `re.sub` over a character class replaces each matched
character with `'0'`, a character-wise map. -/
def normalize_number (text : String) : String :=
  String.mk (text.data.map (fun c => if isNormDigit c then '0' else c))

/-- Python `str.lower`, modelled as a character-wise lowercasing map.  It is
an external collaborator of the code; no claim depends on its exact
character table. -/
def pyLower (text : String) : String :=
  String.mk (text.data.map Char.toLower)

/-- `is_hiragana`: `0x3040 <= ord(ch) <= 0x309F`. -/
def is_hiragana (ch : Char) : Bool :=
  (0x3040 ≤ ch.toNat) && (ch.toNat ≤ 0x309F)

/-- `is_katakana`: `0x30A0 <= ord(ch) <= 0x30FF`. -/
def is_katakana (ch : Char) : Bool :=
  (0x30A0 ≤ ch.toNat) && (ch.toNat ≤ 0x30FF)

/-- The Python `str` character predicates queried by `get_character_type`
(`isspace`, `isdigit`, `islower`, `isupper`).  They consult the external
Unicode tables, so they are a parameter of the embedding. -/
structure CharProps where
  isspace : Char → Bool
  isdigit : Char → Bool
  islower : Char → Bool
  isupper : Char → Bool

/-- `get_character_type`: the if/elif chain of the source, in its exact
priority order. -/
def get_character_type (u : CharProps) (ch : Char) : Nat :=
  if u.isspace ch then 1
  else if u.isdigit ch then 2
  else if u.islower ch then 3
  else if u.isupper ch then 4
  else if is_hiragana ch then 5
  else if is_katakana ch then 6
  else 7

/-- ASCII instantiation of the Unicode character predicates, used to run the
definitions on concrete inputs. -/
def asciiProps : CharProps :=
  ⟨Char.isWhitespace, Char.isDigit, fun c => c.isAlpha && c.isLower,
   fun c => c.isAlpha && c.isUpper⟩

/-- The `bies_dic` literal of `StaticPreprocessor.__init__`:
`{'B': 1, 'I': 2, 'E': 3, 'S': 4}`. -/
def biesStd : Dict := [("B", 1), ("I", 2), ("E", 3), ("S", 4)]

/-- The state of a `StaticPreprocessor`: the two configuration flags and the
six dictionaries.  (`_vocab_init` is also stored by `__init__` but never read
by any method, so it is omitted.) -/
structure StaticPreprocessor where
  lowercase : Bool
  num_norm : Bool
  word_dic : Dict
  char_dic : Dict
  pos_dic : Dict
  label_dic : Dict
  bies_dic : Dict
  char_type_dic : Dict
  deriving Repr, DecidableEq

/-- `StaticPreprocessor.__init__`. -/
def StaticPreprocessor.init (lowercase num_norm : Bool) : StaticPreprocessor :=
  ⟨lowercase, num_norm,
   [(PAD, 0), (UNK, 1)], [(PAD, 0), (UNK, 1)], [(PAD, 0), (UNK, 1)],
   [(PAD, 0)], biesStd, [(PAD, 0)]⟩

/-- The normalization applied by both `fit` and `transform` before
tokenization: join the document's lines, optionally lowercase, optionally
normalize digits. -/
def StaticPreprocessor.normalize (p : StaticPreprocessor) (doc : List String) :
    String :=
  let text := String.join doc
  let text := if p.lowercase then pyLower text else text
  if p.num_norm then normalize_number text else text

/-- Body of `StaticPreprocessor.get_bies`, with `self.bies_dic` explicit.
`none` models the exceptions: `KeyError` on a missing tag and the
`IndexError` of `res[0] = ...` on an empty word. -/
def get_bies (bies_dic : Dict) (word : String) : Option (List Nat) :=
  if word.length = 1 then (dlookup bies_dic "S").map (fun s => [s])
  else if word.length = 0 then none
  else
    match dlookup bies_dic "I", dlookup bies_dic "B", dlookup bies_dic "E" with
    | some i, some b, some e =>
        some (((List.replicate word.length i).set 0 b).set (word.length - 1) e)
    | _, _, _ => none

/-- Body of `StaticPreprocessor.get_char_types`. -/
def get_char_types (u : CharProps) (word : String) : List Nat :=
  word.data.map (get_character_type u)

/-- Python `dic.get(k, dic[UNK])`: the default `dic[UNK]` is computed each
time, so the result is `none` exactly when the UNK sentinel itself is
absent. -/
def getWithUnk (dic : Dict) (k : String) : Option Nat :=
  (dlookup dic UNK).map (fun u => dget dic k u)

/-- Body of `StaticPreprocessor._get_char_ids`:
`[self.char_dic.get(c, self.char_dic[UNK]) for c in word]`. -/
def get_char_ids (char_dic : Dict) (word : String) : Option (List Nat) :=
  word.data.mapM (fun c => getWithUnk char_dic (String.mk [c]))

/-- One word's entry of `word_ids` in `transform`: the word's ID repeated
once per character of the word. -/
def wordIdRep (word_dic : Dict) (w : String) : Option (List Nat) :=
  (List.range w.length).mapM (fun _ => getWithUnk word_dic w)

/-- One word's entry of `pos_ids` in `transform`: the POS tag's ID repeated
once per character of the word. -/
def posIdRep (pos_dic : Dict) (w ps : String) : Option (List Nat) :=
  (List.range w.length).mapM (fun _ => getWithUnk pos_dic ps)

/-- The five per-character feature arrays `transform` produces for one
document. -/
structure DocFeatures where
  word_ids : List Nat
  char_ids : List Nat
  bies_ids : List Nat
  pos_ids : List Nat
  char_types : List Nat
  deriving Repr, DecidableEq

/-- The per-document body of `StaticPreprocessor.transform`.  `tokens` is the
`(surface, pos)` pair list that `tokenize` returns on the normalized text
(the two lists `words`, `poses` are built in lock-step there, hence pairs).
`none` models the exceptions and a failure of the three `assert`
statements. -/
def transformDoc (p : StaticPreprocessor) (u : CharProps)
    (tokens : List (String × String)) : Option DocFeatures := do
  let word_ids ← tokens.mapM (fun wp => wordIdRep p.word_dic wp.1)
  let char_ids ← tokens.mapM (fun wp => get_char_ids p.char_dic wp.1)
  let bies_ids ← tokens.mapM (fun wp => get_bies p.bies_dic wp.1)
  let pos_ids ← tokens.mapM (fun wp => posIdRep p.pos_dic wp.1 wp.2)
  let char_types := tokens.map (fun wp => get_char_types u wp.1)
  let word_ids := word_ids.flatten
  let char_ids := char_ids.flatten
  let bies_ids := bies_ids.flatten
  let pos_ids := pos_ids.flatten
  let char_types := char_types.flatten
  if char_ids.length = word_ids.length ∧ bies_ids.length = word_ids.length ∧
      pos_ids.length = word_ids.length then
    some ⟨word_ids, char_ids, bies_ids, pos_ids, char_types⟩
  else none

/-- The value `inputs` of `transform`: five lists, each holding one array per
document. -/
structure Batch where
  words : List (List Nat)
  chars : List (List Nat)
  bies : List (List Nat)
  poses : List (List Nat)
  types : List (List Nat)
  deriving Repr, DecidableEq

/-- `StaticPreprocessor.transform`.  `tok` is the external `tokenize`
collaborator (the MeCab wrapper), giving the `(surface, pos)` pairs of a
text; `u` holds the external Unicode predicates.  A label sequence is encoded
by direct dictionary indexing, so an unknown label yields `none`
(`KeyError`). -/
def StaticPreprocessor.transform (p : StaticPreprocessor) (u : CharProps)
    (tok : String → List (String × String)) (X : List (List String))
    (y : Option (List (List String))) :
    Option (Batch × Option (List (List Nat))) := do
  let docs ← X.mapM (fun doc => transformDoc p u (tok (p.normalize doc)))
  let inputs : Batch :=
    ⟨docs.map DocFeatures.word_ids, docs.map DocFeatures.char_ids,
     docs.map DocFeatures.bies_ids, docs.map DocFeatures.pos_ids,
     docs.map DocFeatures.char_types⟩
  match y with
  | none => some (inputs, none)
  | some ys =>
      let ylab ← ys.mapM (fun sent => sent.mapM (fun t => dlookup p.label_dic t))
      some (inputs, some ylab)

/-- State-passing form of `transform`: the method reads `self` but never
assigns to any attribute, so the embedding pairs the unchanged state with
the result. -/
def StaticPreprocessor.transformS (p : StaticPreprocessor) (u : CharProps)
    (tok : String → List (String × String)) (X : List (List String))
    (y : Option (List (List String))) :
    StaticPreprocessor × Option (Batch × Option (List (List Nat))) :=
  (p, p.transform u tok X y)

/-- Character mode of `inverse_transform` (`X is not None`): `id2char`
inverts `char_dic` with later entries winning, and each ID is indexed
directly, so an ID with no key yields `none` (`KeyError`). -/
def StaticPreprocessor.inverse_transform (p : StaticPreprocessor)
    (X : List (List Nat)) : Option (List (List String)) :=
  X.mapM (fun sent => sent.mapM (fun i =>
    (p.char_dic.reverse.find? (fun kv => kv.2 == i)).map (fun kv => kv.1)))

/-- Label mode of `inverse_transform` (`X is None`): same construction over
`label_dic`. -/
def StaticPreprocessor.inverse_transform_labels (p : StaticPreprocessor)
    (docs : List (List Nat)) : Option (List (List String)) :=
  docs.mapM (fun doc => doc.mapM (fun i =>
    (p.label_dic.reverse.find? (fun kv => kv.2 == i)).map (fun kv => kv.1)))

/-- Registration of one character during `fit`:
`if c in self.char_dic: continue; self.char_dic[c] = len(self.char_dic)`. -/
def addChar (char_dic : Dict) (c : Char) : Dict :=
  if dcontains char_dic (String.mk [c]) then char_dic
  else dsetItem char_dic (String.mk [c]) (dlen char_dic)

/-- Registration of one word during `fit`: a word already present is skipped
together with its characters; a new word is added and then its characters are
registered in order. -/
def fitWord (wd cd : Dict) (w : String) : Dict × Dict :=
  if dcontains wd w then (wd, cd)
  else (dsetItem wd w (dlen wd), w.data.foldl addChar cd)

/-- Registration of one POS tag during `fit`. -/
def addPos (pos_dic : Dict) (ps : String) : Dict :=
  if dcontains pos_dic ps then pos_dic
  else dsetItem pos_dic ps (dlen pos_dic)

/-- One document of the `fit` loop: normalize, tokenize, register words (with
their characters), then register POS tags. -/
def fitDoc (tok : String → List (String × String)) (p : StaticPreprocessor)
    (doc : List String) : StaticPreprocessor :=
  let tokens := tok (p.normalize doc)
  let wc := tokens.foldl (fun s wp => fitWord s.1 s.2 wp.1) (p.word_dic, p.char_dic)
  let pd := tokens.foldl (fun d wp => addPos d wp.2) p.pos_dic
  { p with word_dic := wc.1, char_dic := wc.2, pos_dic := pd }

/-- One label registration of `fit`:
`self.label_dic[t] = len(self.label_dic)` — note the absence of a membership
guard. -/
def labelStep (label_dic : Dict) (t : String) : Dict :=
  dsetItem label_dic t (dlen label_dic)

/-- `StaticPreprocessor.fit`.  The labels are inserted by iterating over
`set(itertools.chain(*y))`; CPython leaves the enumeration order of a `set`
of strings unspecified (it depends on the per-process hash seed), so that
order is the parameter `ord`, constrained by `IsSetEnum` in the theorems. -/
def StaticPreprocessor.fit (p : StaticPreprocessor)
    (tok : String → List (String × String)) (X : List (List String))
    (ord : List String) : StaticPreprocessor :=
  let q := X.foldl (fitDoc tok) p
  { q with label_dic := ord.foldl labelStep q.label_dic }

/-- `ord` is a possible enumeration of `set(itertools.chain(*y))`: it lists
exactly the distinct labels occurring in `y`, each once. -/
def IsSetEnum (ord : List String) (y : List (List String)) : Prop :=
  ord.Nodup ∧ ∀ t, t ∈ ord ↔ t ∈ y.flatten

/-- Keras `pad_sequences(seqs, padding='post')` with the default
`maxlen=None`: pad each row on the right with `0` to the longest row's
length; `none` models the error raised on an empty batch (`np.max` of an
empty list of lengths). -/
def pad_sequences (seqs : List (List Nat)) : Option (List (List Nat)) :=
  match seqs with
  | [] => none
  | _ =>
    let maxlen := (seqs.map List.length).foldl max 0
    some (seqs.map (fun s => s ++ List.replicate (maxlen - s.length) 0))

/-- Keras `to_categorical(row, n)`: one one-hot row of width `n` per ID;
`none` models the index error on an ID outside `range n`. -/
def to_categorical (row : List Nat) (n : Nat) : Option (List (List Nat)) :=
  row.mapM (fun i =>
    if i < n then some ((List.range n).map (fun j => if j = i then 1 else 0))
    else none)

/-- The state of a `DynamicPreprocessor`: only the label count. -/
structure DynamicPreprocessor where
  n_labels : Nat

/-- `DynamicPreprocessor.transform`: pad each of the five feature streams
independently; when labels are present, pad them and expand each row to
one-hot vectors. -/
def DynamicPreprocessor.transform (d : DynamicPreprocessor) (X : Batch)
    (y : Option (List (List Nat))) :
    Option (Batch × Option (List (List (List Nat)))) := do
  let words ← pad_sequences X.words
  let chars ← pad_sequences X.chars
  let bies ← pad_sequences X.bies
  let poses ← pad_sequences X.poses
  let types ← pad_sequences X.types
  match y with
  | none => some (⟨words, chars, bies, poses, types⟩, none)
  | some ys =>
      let ypad ← pad_sequences ys
      let yoh ← ypad.mapM (fun row => to_categorical row d.n_labels)
      some (⟨words, chars, bies, poses, types⟩, some yoh)

/-! ### Lemmas about the dictionary model -/

theorem dlookup_isSome_iff {d : Dict} {k : String} :
    (dlookup d k).isSome = true ↔ k ∈ keys d := by
  simp [dlookup, keys, List.find?_isSome, List.mem_map]

theorem dcontains_iff {d : Dict} {k : String} :
    dcontains d k = true ↔ k ∈ keys d := by
  simpa [dcontains] using dlookup_isSome_iff

theorem dlookup_mem {d : Dict} {k : String} {v : Nat}
    (h : dlookup d k = some v) : (k, v) ∈ d := by
  unfold dlookup at h
  cases hf : d.find? (fun kv => kv.1 == k) with
  | none => rw [hf] at h; simp at h
  | some kv =>
      rw [hf] at h
      have h1 := List.find?_some hf
      have h2 := List.mem_of_find?_eq_some hf
      cases kv with
      | mk a b =>
          simp only [beq_iff_eq] at h1
          simp at h
          subst h1
          subst h
          exact h2

theorem dlookup_of_mem_keys {d : Dict} {k : String}
    (h : k ∈ keys d) : ∃ v, dlookup d k = some v := by
  have h2 : (dlookup d k).isSome = true := dlookup_isSome_iff.mpr h
  cases hv : dlookup d k with
  | none => rw [hv] at h2; simp at h2
  | some v => exact ⟨v, rfl⟩

theorem dlookup_append {d e : Dict} {k : String} {v : Nat}
    (h : dlookup d k = some v) : dlookup (d ++ e) k = some v := by
  unfold dlookup at h ⊢
  rw [List.find?_append]
  cases hf : d.find? (fun kv => kv.1 == k) with
  | none => rw [hf] at h; simp at h
  | some kv => rw [hf] at h; simpa using h

/-- One dictionary state reachable from another by appending entries. -/
def Extends (d e : Dict) : Prop := ∃ l, e = d ++ l

theorem Extends.refl (d : Dict) : Extends d d := ⟨[], by simp⟩

theorem Extends.trans {a b c : Dict} (h1 : Extends a b) (h2 : Extends b c) :
    Extends a c := by
  obtain ⟨l1, rfl⟩ := h1
  obtain ⟨l2, rfl⟩ := h2
  exact ⟨l1 ++ l2, by simp⟩

theorem Extends.dlookup_eq {d e : Dict} (h : Extends d e) {k : String} {v : Nat}
    (hk : dlookup d k = some v) : dlookup e k = some v := by
  obtain ⟨l, rfl⟩ := h
  exact dlookup_append hk

theorem dsetItem_of_not_mem {d : Dict} {k : String} (v : Nat) (h : k ∉ keys d) :
    dsetItem d k v = d ++ [(k, v)] := by
  have hb : dcontains d k = false := by
    cases hc : dcontains d k with
    | false => rfl
    | true => exact absurd (dcontains_iff.mp hc) h
  simp [dsetItem, hb]

/-! ### Lemmas about `mapM` over the `Option` monad -/

theorem mapM_eq_map {α β : Type} (f : α → Option β) (g : α → β) :
    ∀ (xs : List α), (∀ x ∈ xs, f x = some (g x)) →
      xs.mapM f = some (xs.map g) := by
  intro xs
  induction xs with
  | nil => intro _; simp [List.mapM_nil]; rfl
  | cons a t ih =>
      intro h
      rw [List.mapM_cons, h a (by simp), ih (fun x hx => h x (by simp [hx]))]
      rfl

theorem mapM_length {α β : Type} (f : α → Option β) :
    ∀ (xs : List α) (ys : List β), xs.mapM f = some ys → ys.length = xs.length := by
  intro xs
  induction xs with
  | nil =>
      intro ys h
      simp only [List.mapM_nil] at h
      cases h
      rfl
  | cons a t ih =>
      intro ys h
      rw [List.mapM_cons] at h
      cases hfa : f a with
      | none => rw [hfa] at h; simp at h
      | some b =>
          rw [hfa] at h
          cases hmt : t.mapM f with
          | none => rw [hmt] at h; simp at h
          | some bs =>
              rw [hmt] at h
              simp at h
              subst h
              simp [ih bs hmt]

theorem mapM_none {α β : Type} (f : α → Option β) {x : α} :
    ∀ (xs : List α), x ∈ xs → f x = none → xs.mapM f = none := by
  intro xs
  induction xs with
  | nil => intro h; simp at h
  | cons a t ih =>
      intro hmem hx
      rw [List.mapM_cons]
      rcases List.mem_cons.mp hmem with h | h
      · subst h; rw [hx]; rfl
      · cases hfa : f a with
        | none => rfl
        | some b => rw [ih h hx]; rfl

/-! ### The BIES encoding of one word -/

/-- The BIES ID list of a word of `n` characters, as the specification
describes it: `S` alone for a single character, else `B`, `n - 2` times `I`,
then `E`. -/
def biesList (n : Nat) : List Nat :=
  if n = 1 then [4] else 1 :: (List.replicate (n - 2) 2 ++ [3])

theorem replicate_set_last :
    ∀ k : Nat, (List.replicate (k + 1) (2 : Nat)).set k 3 =
      List.replicate k 2 ++ [3] := by
  intro k
  induction k with
  | zero => rfl
  | succ k ih =>
      rw [List.replicate_succ, List.set_cons_succ, ih]
      simp [List.replicate_succ]

theorem get_bies_eq (w : String) (h : w.length ≠ 0) :
    get_bies biesStd w = some (biesList w.length) := by
  unfold get_bies biesList
  by_cases h1 : w.length = 1
  · simp only [h1, if_pos rfl]
    rfl
  · simp only [if_neg h1, if_neg h]
    have hm : (match dlookup biesStd "I", dlookup biesStd "B", dlookup biesStd "E" with
        | some i, some b, some e =>
            some (((List.replicate w.length i).set 0 b).set (w.length - 1) e)
        | _, _, _ => none) =
          some (((List.replicate w.length 2).set 0 1).set (w.length - 1) 3) := rfl
    rw [hm]
    obtain ⟨k, hk⟩ : ∃ k, w.length = k + 2 := ⟨w.length - 2, by omega⟩
    rw [hk]
    have h2 : k + 2 - 1 = k + 1 := by omega
    have h3 : k + 2 - 2 = k := by omega
    rw [h2, h3, List.replicate_succ, List.set_cons_zero, List.set_cons_succ,
      replicate_set_last]

theorem biesList_length {n : Nat} (h : n ≠ 0) : (biesList n).length = n := by
  unfold biesList
  by_cases h1 : n = 1
  · simp [h1]
  · rw [if_neg h1]
    simp
    omega

/-! ### Invariants of the dictionaries built by `fit` -/

/-- A well-formed dictionary: its values are exactly `0, 1, 2, ...` in
insertion order (hence contiguous from 0 and injective) and its keys are
pairwise distinct. -/
def GoodDict (d : Dict) : Prop :=
  vals d = List.range d.length ∧ (keys d).Nodup

theorem keys_append (d e : Dict) : keys (d ++ e) = keys d ++ keys e :=
  List.map_append _ _ _

theorem vals_append (d e : Dict) : vals (d ++ e) = vals d ++ vals e :=
  List.map_append _ _ _

theorem goodDict_append {d : Dict} {k : String} (hg : GoodDict d)
    (hk : k ∉ keys d) : GoodDict (d ++ [(k, d.length)]) := by
  obtain ⟨hv, hn⟩ := hg
  constructor
  · rw [vals_append]
    have hlen : (d ++ [(k, d.length)]).length = d.length + 1 := by simp
    rw [hlen, List.range_succ, hv]
    rfl
  · rw [keys_append, List.nodup_append]
    refine ⟨hn, by simp [keys], ?_⟩
    intro a ha hb
    have hak : a = k := by simpa [keys] using hb
    subst hak
    exact hk ha

theorem goodDict_init2 : GoodDict [(PAD, 0), (UNK, 1)] := by
  constructor
  · rfl
  · decide

theorem goodDict_init1 : GoodDict [(PAD, 0)] := by
  constructor
  · rfl
  · decide

/-! ### First-occurrence accumulation (the specification's description of
dictionary growth) -/

/-- Append a string to an accumulator unless it is already present. -/
def occInsert (acc : List String) (x : String) : List String :=
  if x ∈ acc then acc else acc ++ [x]

/-- First-occurrence fold: scan a stream left to right, appending each string
the first time it appears. -/
def foldOcc (seen : List String) (xs : List String) : List String :=
  xs.foldl occInsert seen

theorem foldOcc_append (seen : List String) (xs ys : List String) :
    foldOcc seen (xs ++ ys) = foldOcc (foldOcc seen xs) ys :=
  List.foldl_append _ _ _ _

theorem occInsert_sub {acc : List String} {x y : String} (h : x ∈ acc) :
    x ∈ occInsert acc y := by
  unfold occInsert
  split
  · exact h
  · exact List.mem_append_left _ h

theorem foldOcc_sub {seen : List String} {x : String} (xs : List String)
    (h : x ∈ seen) : x ∈ foldOcc seen xs := by
  induction xs generalizing seen with
  | nil => exact h
  | cons a t ih => exact ih (occInsert_sub h)

theorem mem_occInsert_self (acc : List String) (x : String) :
    x ∈ occInsert acc x := by
  unfold occInsert
  split
  · assumption
  · simp

theorem mem_foldOcc {seen : List String} {x : String} {xs : List String}
    (h : x ∈ xs) : x ∈ foldOcc seen xs := by
  induction xs generalizing seen with
  | nil => simp at h
  | cons a t ih =>
      rcases List.mem_cons.mp h with h | h
      · subst h; exact foldOcc_sub t (mem_occInsert_self seen x)
      · exact ih h

theorem foldOcc_of_seen {seen : List String} {xs : List String}
    (h : ∀ x ∈ xs, x ∈ seen) : foldOcc seen xs = seen := by
  induction xs with
  | nil => rfl
  | cons a t ih =>
      have ha : occInsert seen a = seen := by
        unfold occInsert
        rw [if_pos (h a (by simp))]
      show foldOcc (occInsert seen a) t = seen
      rw [ha]
      exact ih (fun x hx => h x (by simp [hx]))

/-! ### Step lemmas for `fit` -/

theorem Extends.keys_sub {d e : Dict} (h : Extends d e) {k : String}
    (hk : k ∈ keys d) : k ∈ keys e := by
  obtain ⟨l, rfl⟩ := h
  rw [keys_append]
  exact List.mem_append_left _ hk

theorem addChar_keys (cd : Dict) (c : Char) :
    keys (addChar cd c) = occInsert (keys cd) (String.mk [c]) := by
  unfold addChar occInsert
  by_cases h : String.mk [c] ∈ keys cd
  · rw [if_pos (dcontains_iff.mpr h), if_pos h]
  · rw [if_neg (fun hc => h (dcontains_iff.mp hc)), if_neg h,
      dsetItem_of_not_mem _ h, keys_append]
    rfl

theorem addChar_good {cd : Dict} (hg : GoodDict cd) (c : Char) :
    GoodDict (addChar cd c) := by
  unfold addChar
  by_cases h : String.mk [c] ∈ keys cd
  · rw [if_pos (dcontains_iff.mpr h)]
    exact hg
  · rw [if_neg (fun hc => h (dcontains_iff.mp hc)), dsetItem_of_not_mem _ h]
    exact goodDict_append hg h

theorem addChar_extends (cd : Dict) (c : Char) : Extends cd (addChar cd c) := by
  unfold addChar
  by_cases h : String.mk [c] ∈ keys cd
  · rw [if_pos (dcontains_iff.mpr h)]
    exact Extends.refl cd
  · rw [if_neg (fun hc => h (dcontains_iff.mp hc)), dsetItem_of_not_mem _ h]
    exact ⟨_, rfl⟩

theorem foldl_addChar_extends (l : List Char) :
    ∀ cd : Dict, Extends cd (l.foldl addChar cd) := by
  induction l with
  | nil => intro cd; exact Extends.refl cd
  | cons c t ih => intro cd; exact (addChar_extends cd c).trans (ih (addChar cd c))

theorem foldl_addChar_keys (l : List Char) :
    ∀ cd : Dict, keys (l.foldl addChar cd) =
      foldOcc (keys cd) (l.map (fun c => String.mk [c])) := by
  induction l with
  | nil => intro cd; rfl
  | cons c t ih =>
      intro cd
      show keys (t.foldl addChar (addChar cd c)) = _
      rw [ih, addChar_keys]
      rfl

theorem foldl_addChar_good (l : List Char) :
    ∀ {cd : Dict}, GoodDict cd → GoodDict (l.foldl addChar cd) := by
  induction l with
  | nil => intro cd h; exact h
  | cons c t ih => intro cd h; exact ih (addChar_good h c)

theorem foldl_addChar_mem (l : List Char) (cd : Dict) {c : Char} (h : c ∈ l) :
    String.mk [c] ∈ keys (l.foldl addChar cd) := by
  rw [foldl_addChar_keys]
  exact mem_foldOcc (List.mem_map_of_mem _ h)

theorem addPos_keys (pd : Dict) (ps : String) :
    keys (addPos pd ps) = occInsert (keys pd) ps := by
  unfold addPos occInsert
  by_cases h : ps ∈ keys pd
  · rw [if_pos (dcontains_iff.mpr h), if_pos h]
  · rw [if_neg (fun hc => h (dcontains_iff.mp hc)), if_neg h,
      dsetItem_of_not_mem _ h, keys_append]
    rfl

theorem addPos_good {pd : Dict} (hg : GoodDict pd) (ps : String) :
    GoodDict (addPos pd ps) := by
  unfold addPos
  by_cases h : ps ∈ keys pd
  · rw [if_pos (dcontains_iff.mpr h)]
    exact hg
  · rw [if_neg (fun hc => h (dcontains_iff.mp hc)), dsetItem_of_not_mem _ h]
    exact goodDict_append hg h

theorem addPos_extends (pd : Dict) (ps : String) : Extends pd (addPos pd ps) := by
  unfold addPos
  by_cases h : ps ∈ keys pd
  · rw [if_pos (dcontains_iff.mpr h)]
    exact Extends.refl pd
  · rw [if_neg (fun hc => h (dcontains_iff.mp hc)), dsetItem_of_not_mem _ h]
    exact ⟨_, rfl⟩

theorem foldl_addPos_extends (tokens : List (String × String)) :
    ∀ pd : Dict, Extends pd (tokens.foldl (fun d wp => addPos d wp.2) pd) := by
  induction tokens with
  | nil => intro pd; exact Extends.refl pd
  | cons wp t ih => intro pd; exact (addPos_extends pd wp.2).trans (ih _)

theorem foldl_addPos_keys (tokens : List (String × String)) :
    ∀ pd : Dict, keys (tokens.foldl (fun d wp => addPos d wp.2) pd) =
      foldOcc (keys pd) (tokens.map Prod.snd) := by
  induction tokens with
  | nil => intro pd; rfl
  | cons wp t ih =>
      intro pd
      show keys (t.foldl _ (addPos pd wp.2)) = _
      rw [ih, addPos_keys]
      rfl

theorem foldl_addPos_good (tokens : List (String × String)) :
    ∀ {pd : Dict}, GoodDict pd →
      GoodDict (tokens.foldl (fun d wp => addPos d wp.2) pd) := by
  induction tokens with
  | nil => intro pd h; exact h
  | cons wp t ih => intro pd h; exact ih (addPos_good h wp.2)

/-- The invariant connecting the word and character dictionaries during
`fit`: every registered word other than the two sentinels has all of its
characters registered. -/
def CharCover (wd cd : Dict) : Prop :=
  ∀ w ∈ keys wd, w = PAD ∨ w = UNK ∨ ∀ c ∈ w.data, String.mk [c] ∈ keys cd

theorem fitWord_extends (wd cd : Dict) (w : String) :
    Extends wd (fitWord wd cd w).1 ∧ Extends cd (fitWord wd cd w).2 := by
  unfold fitWord
  by_cases h : w ∈ keys wd
  · rw [if_pos (dcontains_iff.mpr h)]
    exact ⟨Extends.refl wd, Extends.refl cd⟩
  · rw [if_neg (fun hc => h (dcontains_iff.mp hc))]
    refine ⟨?_, foldl_addChar_extends _ cd⟩
    rw [dsetItem_of_not_mem _ h]
    exact ⟨_, rfl⟩

theorem fitWord_good {wd cd : Dict} (hw : GoodDict wd) (hc : GoodDict cd)
    (w : String) : GoodDict (fitWord wd cd w).1 ∧ GoodDict (fitWord wd cd w).2 := by
  unfold fitWord
  by_cases h : w ∈ keys wd
  · rw [if_pos (dcontains_iff.mpr h)]
    exact ⟨hw, hc⟩
  · rw [if_neg (fun hc2 => h (dcontains_iff.mp hc2))]
    refine ⟨?_, foldl_addChar_good _ hc⟩
    rw [dsetItem_of_not_mem _ h]
    exact goodDict_append hw h

theorem fitWord_keys1 (wd cd : Dict) (w : String) :
    keys (fitWord wd cd w).1 = occInsert (keys wd) w := by
  unfold fitWord occInsert
  by_cases h : w ∈ keys wd
  · rw [if_pos (dcontains_iff.mpr h), if_pos h]
  · rw [if_neg (fun hc => h (dcontains_iff.mp hc)), if_neg h,
      dsetItem_of_not_mem _ h]
    exact keys_append _ _

theorem fitWord_cover {wd cd : Dict} (hcov : CharCover wd cd) (w : String) :
    CharCover (fitWord wd cd w).1 (fitWord wd cd w).2 := by
  unfold fitWord
  by_cases h : w ∈ keys wd
  · rw [if_pos (dcontains_iff.mpr h)]
    exact hcov
  · rw [if_neg (fun hc => h (dcontains_iff.mp hc))]
    intro v hv
    simp only at hv
    rw [dsetItem_of_not_mem _ h, keys_append] at hv
    rcases List.mem_append.mp hv with hv | hv
    · rcases hcov v hv with h1 | h1 | h1
      · exact Or.inl h1
      · exact Or.inr (Or.inl h1)
      · exact Or.inr (Or.inr (fun c hc =>
          (foldl_addChar_extends _ cd).keys_sub (h1 c hc)))
    · have hvw : v = w := by simpa [keys] using hv
      subst hvw
      exact Or.inr (Or.inr (fun c hc => foldl_addChar_mem _ cd hc))

theorem fitWord_keys2 {wd cd : Dict} (hcov : CharCover wd cd) {w : String}
    (h1 : w ≠ PAD) (h2 : w ≠ UNK) :
    keys (fitWord wd cd w).2 =
      foldOcc (keys cd) (w.data.map (fun c => String.mk [c])) := by
  unfold fitWord
  by_cases h : w ∈ keys wd
  · rw [if_pos (dcontains_iff.mpr h)]
    rcases hcov w h with hx | hx | hx
    · exact absurd hx h1
    · exact absurd hx h2
    · rw [foldOcc_of_seen]
      intro x hx2
      obtain ⟨c, hc, rfl⟩ := List.mem_map.mp hx2
      exact hx c hc
  · rw [if_neg (fun hc => h (dcontains_iff.mp hc))]
    exact foldl_addChar_keys _ cd

/-! ### Lemmas about the token loop and the document loop of `fit` -/

theorem foldl_fitWord_extends (tokens : List (String × String)) :
    ∀ s : Dict × Dict,
      Extends s.1 (tokens.foldl (fun s wp => fitWord s.1 s.2 wp.1) s).1 ∧
      Extends s.2 (tokens.foldl (fun s wp => fitWord s.1 s.2 wp.1) s).2 := by
  induction tokens with
  | nil => intro s; exact ⟨Extends.refl _, Extends.refl _⟩
  | cons wp t ih =>
      intro s
      have h1 := fitWord_extends s.1 s.2 wp.1
      have h2 := ih (fitWord s.1 s.2 wp.1)
      exact ⟨h1.1.trans h2.1, h1.2.trans h2.2⟩

theorem foldl_fitWord_good (tokens : List (String × String)) :
    ∀ s : Dict × Dict, GoodDict s.1 → GoodDict s.2 →
      GoodDict (tokens.foldl (fun s wp => fitWord s.1 s.2 wp.1) s).1 ∧
      GoodDict (tokens.foldl (fun s wp => fitWord s.1 s.2 wp.1) s).2 := by
  induction tokens with
  | nil => intro s h1 h2; exact ⟨h1, h2⟩
  | cons wp t ih =>
      intro s h1 h2
      have h3 := fitWord_good h1 h2 wp.1
      exact ih (fitWord s.1 s.2 wp.1) h3.1 h3.2

theorem foldl_fitWord_cover (tokens : List (String × String)) :
    ∀ s : Dict × Dict, CharCover s.1 s.2 →
      CharCover (tokens.foldl (fun s wp => fitWord s.1 s.2 wp.1) s).1
        (tokens.foldl (fun s wp => fitWord s.1 s.2 wp.1) s).2 := by
  induction tokens with
  | nil => intro s h; exact h
  | cons wp t ih =>
      intro s h
      exact ih (fitWord s.1 s.2 wp.1) (fitWord_cover h wp.1)

theorem foldl_fitWord_keys (tokens : List (String × String))
    (hs : ∀ wp ∈ tokens, wp.1 ≠ PAD ∧ wp.1 ≠ UNK) :
    ∀ s : Dict × Dict, CharCover s.1 s.2 →
      keys (tokens.foldl (fun s wp => fitWord s.1 s.2 wp.1) s).1 =
        foldOcc (keys s.1) (tokens.map Prod.fst) ∧
      keys (tokens.foldl (fun s wp => fitWord s.1 s.2 wp.1) s).2 =
        foldOcc (keys s.2)
          (tokens.flatMap (fun wp => wp.1.data.map (fun c => String.mk [c]))) := by
  induction tokens with
  | nil => intro s _; exact ⟨rfl, rfl⟩
  | cons wp t ih =>
      intro s hcov
      have hw := hs wp (by simp)
      have hcov2 := fitWord_cover hcov wp.1
      have hrest := ih (fun x hx => hs x (by simp [hx])) (fitWord s.1 s.2 wp.1) hcov2
      constructor
      · rw [show ((wp :: t).foldl (fun s wp => fitWord s.1 s.2 wp.1) s) =
            t.foldl (fun s wp => fitWord s.1 s.2 wp.1) (fitWord s.1 s.2 wp.1) from rfl]
        rw [hrest.1, fitWord_keys1]
        rfl
      · rw [show ((wp :: t).foldl (fun s wp => fitWord s.1 s.2 wp.1) s) =
            t.foldl (fun s wp => fitWord s.1 s.2 wp.1) (fitWord s.1 s.2 wp.1) from rfl]
        rw [hrest.2, fitWord_keys2 hcov hw.1 hw.2, List.flatMap_cons, foldOcc_append]

theorem normalize_congr {p q : StaticPreprocessor} (h1 : p.lowercase = q.lowercase)
    (h2 : p.num_norm = q.num_norm) (doc : List String) :
    p.normalize doc = q.normalize doc := by
  unfold StaticPreprocessor.normalize
  rw [h1, h2]

theorem fitDoc_frame (tok : String → List (String × String))
    (p : StaticPreprocessor) (doc : List String) :
    (fitDoc tok p doc).label_dic = p.label_dic ∧
    (fitDoc tok p doc).bies_dic = p.bies_dic ∧
    (fitDoc tok p doc).char_type_dic = p.char_type_dic ∧
    (fitDoc tok p doc).lowercase = p.lowercase ∧
    (fitDoc tok p doc).num_norm = p.num_norm :=
  ⟨rfl, rfl, rfl, rfl, rfl⟩

theorem fitDoc_extends (tok : String → List (String × String))
    (p : StaticPreprocessor) (doc : List String) :
    Extends p.word_dic (fitDoc tok p doc).word_dic ∧
    Extends p.char_dic (fitDoc tok p doc).char_dic ∧
    Extends p.pos_dic (fitDoc tok p doc).pos_dic := by
  have h1 := foldl_fitWord_extends (tok (p.normalize doc)) (p.word_dic, p.char_dic)
  have h2 := foldl_addPos_extends (tok (p.normalize doc)) p.pos_dic
  exact ⟨h1.1, h1.2, h2⟩

theorem fitDoc_good (tok : String → List (String × String))
    (p : StaticPreprocessor) (doc : List String)
    (h1 : GoodDict p.word_dic) (h2 : GoodDict p.char_dic)
    (h3 : GoodDict p.pos_dic) :
    GoodDict (fitDoc tok p doc).word_dic ∧
    GoodDict (fitDoc tok p doc).char_dic ∧
    GoodDict (fitDoc tok p doc).pos_dic := by
  have hw := foldl_fitWord_good (tok (p.normalize doc)) (p.word_dic, p.char_dic) h1 h2
  have hp := foldl_addPos_good (tok (p.normalize doc)) h3
  exact ⟨hw.1, hw.2, hp⟩

theorem fitDoc_cover (tok : String → List (String × String))
    (p : StaticPreprocessor) (doc : List String)
    (h : CharCover p.word_dic p.char_dic) :
    CharCover (fitDoc tok p doc).word_dic (fitDoc tok p doc).char_dic :=
  foldl_fitWord_cover (tok (p.normalize doc)) (p.word_dic, p.char_dic) h

theorem foldl_fitDoc_frame (tok : String → List (String × String))
    (X : List (List String)) :
    ∀ p : StaticPreprocessor,
      Extends p.word_dic (X.foldl (fitDoc tok) p).word_dic ∧
      Extends p.char_dic (X.foldl (fitDoc tok) p).char_dic ∧
      Extends p.pos_dic (X.foldl (fitDoc tok) p).pos_dic ∧
      (X.foldl (fitDoc tok) p).label_dic = p.label_dic ∧
      (X.foldl (fitDoc tok) p).bies_dic = p.bies_dic ∧
      (X.foldl (fitDoc tok) p).char_type_dic = p.char_type_dic ∧
      (X.foldl (fitDoc tok) p).lowercase = p.lowercase ∧
      (X.foldl (fitDoc tok) p).num_norm = p.num_norm := by
  induction X with
  | nil =>
      intro p
      exact ⟨Extends.refl _, Extends.refl _, Extends.refl _, rfl, rfl, rfl, rfl, rfl⟩
  | cons doc t ih =>
      intro p
      simp only [List.foldl_cons]
      have h1 := fitDoc_extends tok p doc
      have h2 := ih (fitDoc tok p doc)
      refine ⟨h1.1.trans h2.1, h1.2.1.trans h2.2.1, h1.2.2.trans h2.2.2.1, ?_⟩
      rw [h2.2.2.2.1, h2.2.2.2.2.1, h2.2.2.2.2.2.1, h2.2.2.2.2.2.2.1,
        h2.2.2.2.2.2.2.2]
      exact ⟨rfl, rfl, rfl, rfl, rfl⟩

theorem foldl_fitDoc_good (tok : String → List (String × String))
    (X : List (List String)) :
    ∀ p : StaticPreprocessor,
      GoodDict p.word_dic → GoodDict p.char_dic → GoodDict p.pos_dic →
      GoodDict (X.foldl (fitDoc tok) p).word_dic ∧
      GoodDict (X.foldl (fitDoc tok) p).char_dic ∧
      GoodDict (X.foldl (fitDoc tok) p).pos_dic := by
  induction X with
  | nil => intro p h1 h2 h3; exact ⟨h1, h2, h3⟩
  | cons doc t ih =>
      intro p h1 h2 h3
      have h4 := fitDoc_good tok p doc h1 h2 h3
      exact ih (fitDoc tok p doc) h4.1 h4.2.1 h4.2.2

theorem foldl_fitDoc_keys (tok : String → List (String × String))
    (N : List String → String) (X : List (List String))
    (hs : ∀ doc ∈ X, ∀ wp ∈ tok (N doc), wp.1 ≠ PAD ∧ wp.1 ≠ UNK) :
    ∀ p : StaticPreprocessor, CharCover p.word_dic p.char_dic →
      (∀ doc, p.normalize doc = N doc) →
      keys (X.foldl (fitDoc tok) p).word_dic =
        foldOcc (keys p.word_dic)
          ((X.map (fun doc => (tok (N doc)).map Prod.fst)).flatten) ∧
      keys (X.foldl (fitDoc tok) p).char_dic =
        foldOcc (keys p.char_dic)
          ((X.map (fun doc => (tok (N doc)).flatMap
            (fun wp => wp.1.data.map (fun c => String.mk [c])))).flatten) ∧
      keys (X.foldl (fitDoc tok) p).pos_dic =
        foldOcc (keys p.pos_dic)
          ((X.map (fun doc => (tok (N doc)).map Prod.snd)).flatten) := by
  induction X with
  | nil => intro p _ _; exact ⟨rfl, rfl, rfl⟩
  | cons doc t ih =>
      intro p hcov hnorm
      simp only [List.foldl_cons, List.map_cons, List.flatten_cons]
      have htok : tok (p.normalize doc) = tok (N doc) := by rw [hnorm]
      have hdoc := foldl_fitWord_keys (tok (p.normalize doc))
        (by rw [htok]; exact hs doc (by simp))
        (p.word_dic, p.char_dic) hcov
      have hpos := foldl_addPos_keys (tok (p.normalize doc)) p.pos_dic
      have hcov2 : CharCover (fitDoc tok p doc).word_dic (fitDoc tok p doc).char_dic :=
        fitDoc_cover tok p doc hcov
      have hnorm2 : ∀ d, (fitDoc tok p doc).normalize d = N d := by
        intro d
        rw [normalize_congr (fitDoc_frame tok p doc).2.2.2.1
          (fitDoc_frame tok p doc).2.2.2.2 d]
        exact hnorm d
      have hrest := ih (fun d hd => hs d (by simp [hd])) (fitDoc tok p doc) hcov2 hnorm2
      refine ⟨?_, ?_, ?_⟩
      · rw [hrest.1, foldOcc_append]
        have : keys (fitDoc tok p doc).word_dic =
            foldOcc (keys p.word_dic) ((tok (N doc)).map Prod.fst) := by
          rw [← htok]
          exact hdoc.1
        rw [this]
      · rw [hrest.2.1, foldOcc_append]
        have : keys (fitDoc tok p doc).char_dic =
            foldOcc (keys p.char_dic) ((tok (N doc)).flatMap
              (fun wp => wp.1.data.map (fun c => String.mk [c]))) := by
          rw [← htok]
          exact hdoc.2
        rw [this]
      · rw [hrest.2.2, foldOcc_append]
        have : keys (fitDoc tok p doc).pos_dic =
            foldOcc (keys p.pos_dic) ((tok (N doc)).map Prod.snd) := by
          rw [← htok]
          exact hpos
        rw [this]

theorem foldl_labelStep (ord : List String) :
    ∀ ld : Dict, GoodDict ld → ord.Nodup → (∀ t ∈ ord, t ∉ keys ld) →
      GoodDict (ord.foldl labelStep ld) ∧
      keys (ord.foldl labelStep ld) = keys ld ++ ord ∧
      Extends ld (ord.foldl labelStep ld) := by
  induction ord with
  | nil => intro ld h _ _; exact ⟨h, by simp, Extends.refl _⟩
  | cons a t ih =>
      intro ld h hnd hfresh
      have ha : a ∉ keys ld := hfresh a (by simp)
      have hstep : labelStep ld a = ld ++ [(a, ld.length)] := by
        unfold labelStep dlen
        exact dsetItem_of_not_mem _ ha
      have hg2 : GoodDict (ld ++ [(a, ld.length)]) := goodDict_append h ha
      have hfresh2 : ∀ s ∈ t, s ∉ keys (ld ++ [(a, ld.length)]) := by
        intro s hs hmem
        rw [keys_append] at hmem
        rcases List.mem_append.mp hmem with hx | hx
        · exact hfresh s (by simp [hs]) hx
        · have hsa : s = a := by simpa [keys] using hx
          subst hsa
          exact (List.nodup_cons.mp hnd).1 hs
      have hrest := ih (ld ++ [(a, ld.length)]) hg2 (List.nodup_cons.mp hnd).2 hfresh2
      simp only [List.foldl_cons, hstep]
      refine ⟨hrest.1, ?_, Extends.trans ⟨[(a, ld.length)], rfl⟩ hrest.2.2⟩
      rw [hrest.2.1, keys_append]
      simp [keys]

/-! ### The state of a freshly fitted preprocessor -/

theorem fit_lookups (lc nn : Bool) (tok : String → List (String × String))
    (X : List (List String)) (ord : List String) :
    dlookup ((StaticPreprocessor.init lc nn).fit tok X ord).word_dic UNK = some 1 ∧
    dlookup ((StaticPreprocessor.init lc nn).fit tok X ord).char_dic UNK = some 1 ∧
    dlookup ((StaticPreprocessor.init lc nn).fit tok X ord).pos_dic UNK = some 1 ∧
    ((StaticPreprocessor.init lc nn).fit tok X ord).bies_dic = biesStd ∧
    dlookup ((StaticPreprocessor.init lc nn).fit tok X ord).word_dic PAD = some 0 ∧
    dlookup ((StaticPreprocessor.init lc nn).fit tok X ord).char_dic PAD = some 0 ∧
    dlookup ((StaticPreprocessor.init lc nn).fit tok X ord).pos_dic PAD = some 0 := by
  have hf := foldl_fitDoc_frame tok X (StaticPreprocessor.init lc nn)
  have hu : dlookup [(PAD, 0), (UNK, 1)] UNK = some 1 := by decide
  have hp : dlookup [(PAD, 0), (UNK, 1)] PAD = some 0 := by decide
  refine ⟨hf.1.dlookup_eq hu, hf.2.1.dlookup_eq hu, hf.2.2.1.dlookup_eq hu,
    hf.2.2.2.2.1, hf.1.dlookup_eq hp, hf.2.1.dlookup_eq hp, hf.2.2.1.dlookup_eq hp⟩

/-! ### The output of `transform` on one document -/

theorem getWithUnk_eq {dic : Dict} {u0 : Nat} (hu : dlookup dic UNK = some u0)
    (k : String) : getWithUnk dic k = some (dget dic k u0) := by
  unfold getWithUnk
  rw [hu]
  rfl

theorem wordIdRep_eq {word_dic : Dict} {u0 : Nat}
    (hu : dlookup word_dic UNK = some u0) (w : String) :
    wordIdRep word_dic w =
      some (List.replicate w.length (dget word_dic w u0)) := by
  unfold wordIdRep
  rw [mapM_eq_map (fun _ => getWithUnk word_dic w) (fun _ => dget word_dic w u0)
    (List.range w.length) (fun _ _ => getWithUnk_eq hu w)]
  congr 1
  simp [List.map_const]

theorem posIdRep_eq {pos_dic : Dict} {u0 : Nat}
    (hu : dlookup pos_dic UNK = some u0) (w ps : String) :
    posIdRep pos_dic w ps =
      some (List.replicate w.length (dget pos_dic ps u0)) := by
  unfold posIdRep
  rw [mapM_eq_map (fun _ => getWithUnk pos_dic ps) (fun _ => dget pos_dic ps u0)
    (List.range w.length) (fun _ _ => getWithUnk_eq hu ps)]
  congr 1
  simp [List.map_const]

theorem get_char_ids_eq {char_dic : Dict} {u0 : Nat}
    (hu : dlookup char_dic UNK = some u0) (w : String) :
    get_char_ids char_dic w =
      some (w.data.map (fun c => dget char_dic (String.mk [c]) u0)) := by
  unfold get_char_ids
  exact mapM_eq_map _ _ _ (fun c _ => getWithUnk_eq hu _)

theorem transformDoc_spec (p : StaticPreprocessor) (u : CharProps)
    (tokens : List (String × String)) {uw uc up : Nat}
    (huw : dlookup p.word_dic UNK = some uw)
    (huc : dlookup p.char_dic UNK = some uc)
    (hup : dlookup p.pos_dic UNK = some up)
    (hb : p.bies_dic = biesStd)
    (hne : ∀ wp ∈ tokens, wp.1.length ≠ 0) :
    transformDoc p u tokens = some
      ⟨(tokens.map (fun wp =>
          List.replicate wp.1.length (dget p.word_dic wp.1 uw))).flatten,
       (tokens.map (fun wp =>
          wp.1.data.map (fun c => dget p.char_dic (String.mk [c]) uc))).flatten,
       (tokens.map (fun wp => biesList wp.1.length)).flatten,
       (tokens.map (fun wp =>
          List.replicate wp.1.length (dget p.pos_dic wp.2 up))).flatten,
       (tokens.map (fun wp => get_char_types u wp.1)).flatten⟩ := by
  unfold transformDoc
  rw [mapM_eq_map (fun wp => wordIdRep p.word_dic wp.1)
    (fun wp => List.replicate wp.1.length (dget p.word_dic wp.1 uw)) tokens
    (fun wp _ => wordIdRep_eq huw wp.1)]
  rw [mapM_eq_map (fun wp => get_char_ids p.char_dic wp.1)
    (fun wp => wp.1.data.map (fun c => dget p.char_dic (String.mk [c]) uc)) tokens
    (fun wp _ => get_char_ids_eq huc wp.1)]
  rw [mapM_eq_map (fun wp => get_bies p.bies_dic wp.1)
    (fun wp => biesList wp.1.length) tokens
    (fun wp hwp => by rw [hb]; exact get_bies_eq wp.1 (hne wp hwp))]
  rw [mapM_eq_map (fun wp => posIdRep p.pos_dic wp.1 wp.2)
    (fun wp => List.replicate wp.1.length (dget p.pos_dic wp.2 up)) tokens
    (fun wp _ => posIdRep_eq hup wp.1 wp.2)]
  simp only [Option.some_bind, Option.bind_eq_bind]
  have hW : ((tokens.map (fun wp =>
      List.replicate wp.1.length (dget p.word_dic wp.1 uw))).flatten).length =
      (tokens.map (fun wp => wp.1.length)).sum := by
    rw [List.length_flatten, List.map_map]
    congr 1
    apply List.map_congr_left
    intro wp _
    simp [Function.comp]
  have hC : ((tokens.map (fun wp =>
      wp.1.data.map (fun c => dget p.char_dic (String.mk [c]) uc))).flatten).length =
      (tokens.map (fun wp => wp.1.length)).sum := by
    rw [List.length_flatten, List.map_map]
    congr 1
    apply List.map_congr_left
    intro wp _
    show (wp.1.data.map (fun c => dget p.char_dic (String.mk [c]) uc)).length =
      wp.1.length
    rw [List.length_map]
    rfl
  have hB : ((tokens.map (fun wp => biesList wp.1.length)).flatten).length =
      (tokens.map (fun wp => wp.1.length)).sum := by
    rw [List.length_flatten, List.map_map]
    congr 1
    apply List.map_congr_left
    intro wp hwp
    exact biesList_length (hne wp hwp)
  have hP : ((tokens.map (fun wp =>
      List.replicate wp.1.length (dget p.pos_dic wp.2 up))).flatten).length =
      (tokens.map (fun wp => wp.1.length)).sum := by
    rw [List.length_flatten, List.map_map]
    congr 1
    apply List.map_congr_left
    intro wp _
    simp [Function.comp]
  rw [if_pos ⟨hC.trans hW.symm, hB.trans hW.symm, hP.trans hW.symm⟩]

/-! ### Claim theorems -/

/-- C2: for every word, the BIES encoding produced by `get_bies` (with the
tag dictionary built by `__init__`, where `B = 1`, `I = 2`, `E = 3`,
`S = 4`): a single-character word yields exactly the one tag `S`; a word of
length `L ≥ 2` yields `B`, then `L - 2` times `I`, then `E`; in particular a
two-character word yields exactly `[B, E]`. -/
theorem C2_get_bies_shape (w : String) :
    (w.length = 1 → get_bies biesStd w = some [4]) ∧
    (2 ≤ w.length →
      get_bies biesStd w = some (1 :: (List.replicate (w.length - 2) 2 ++ [3]))) ∧
    (w.length = 2 → get_bies biesStd w = some [1, 3]) := by
  refine ⟨?_, ?_, ?_⟩
  · intro h
    rw [get_bies_eq w (by omega)]
    unfold biesList
    rw [if_pos h]
  · intro h
    rw [get_bies_eq w (by omega)]
    unfold biesList
    rw [if_neg (by omega)]
  · intro h
    rw [get_bies_eq w (by omega)]
    unfold biesList
    rw [if_neg (by omega), h]
    rfl

/-- Concrete instances of `C2_get_bies_shape` at words of length 1, 2 and 4. -/
theorem C2_get_bies_shape_witness :
    get_bies biesStd "a" = some [4] ∧
    get_bies biesStd "ab" = some [1, 3] ∧
    get_bies biesStd "abcd" =
      some (1 :: (List.replicate ("abcd".length - 2) 2 ++ [3])) :=
  ⟨(C2_get_bies_shape "a").1 (by decide),
   (C2_get_bies_shape "ab").2.2 (by decide),
   (C2_get_bies_shape "abcd").2.1 (by decide)⟩

/-- C6 counterexample: the `bies_dic` of a freshly constructed
`StaticPreprocessor` has no `PAD` key at all and holds exactly 4 entries —
it is not the claimed 5-entry mapping with `PAD` at ID 0. -/
theorem C6_cex_bies_no_pad :
    dlookup (StaticPreprocessor.init true true).bies_dic PAD = none ∧
    dlen (StaticPreprocessor.init true true).bies_dic = 4 := by
  decide

/-- C6 amended: the BIES tag dictionary of every `StaticPreprocessor` (as
constructed, and after any `fit`) is the fixed 4-entry mapping
`{B: 1, I: 2, E: 3, S: 4}`; ID 0 is left for padding but no `PAD` key is
stored. -/
theorem C6_bies_dic_fixed (lc nn : Bool) (tok : String → List (String × String))
    (X : List (List String)) (ord : List String) :
    (StaticPreprocessor.init lc nn).bies_dic = biesStd ∧
    ((StaticPreprocessor.init lc nn).fit tok X ord).bies_dic = biesStd :=
  ⟨rfl, (fit_lookups lc nn tok X ord).2.2.2.1⟩

/-- C9: `get_character_type` classifies a character by checking, in this
priority order: whitespace → 1, decimal digit → 2, lowercase → 3,
uppercase → 4, hiragana (U+3040–U+309F) → 5, katakana (U+30A0–U+30FF) → 6,
anything else → 7; it is total with a value in 1..7 and never returns the
PAD code 0. -/
theorem C9_char_type (u : CharProps) (ch : Char) :
    (1 ≤ get_character_type u ch ∧ get_character_type u ch ≤ 7) ∧
    get_character_type u ch ≠ 0 ∧
    (u.isspace ch = true → get_character_type u ch = 1) ∧
    (u.isspace ch = false → u.isdigit ch = true →
      get_character_type u ch = 2) ∧
    (u.isspace ch = false → u.isdigit ch = false → u.islower ch = true →
      get_character_type u ch = 3) ∧
    (u.isspace ch = false → u.isdigit ch = false → u.islower ch = false →
      u.isupper ch = true → get_character_type u ch = 4) ∧
    (u.isspace ch = false → u.isdigit ch = false → u.islower ch = false →
      u.isupper ch = false → is_hiragana ch = true →
      get_character_type u ch = 5) ∧
    (u.isspace ch = false → u.isdigit ch = false → u.islower ch = false →
      u.isupper ch = false → is_hiragana ch = false → is_katakana ch = true →
      get_character_type u ch = 6) ∧
    (u.isspace ch = false → u.isdigit ch = false → u.islower ch = false →
      u.isupper ch = false → is_hiragana ch = false → is_katakana ch = false →
      get_character_type u ch = 7) ∧
    is_hiragana ch = ((0x3040 ≤ ch.toNat) && (ch.toNat ≤ 0x309F)) ∧
    is_katakana ch = ((0x30A0 ≤ ch.toNat) && (ch.toNat ≤ 0x30FF)) := by
  refine ⟨?_, ?_,
    fun h1 => by simp [get_character_type, h1],
    fun h1 h2 => by simp [get_character_type, h1, h2],
    fun h1 h2 h3 => by simp [get_character_type, h1, h2, h3],
    fun h1 h2 h3 h4 => by simp [get_character_type, h1, h2, h3, h4],
    fun h1 h2 h3 h4 h5 => by simp [get_character_type, h1, h2, h3, h4, h5],
    fun h1 h2 h3 h4 h5 h6 => by
      simp [get_character_type, h1, h2, h3, h4, h5, h6],
    fun h1 h2 h3 h4 h5 h6 => by
      simp [get_character_type, h1, h2, h3, h4, h5, h6],
    rfl, rfl⟩
  · unfold get_character_type
    split_ifs <;> omega
  · unfold get_character_type
    split_ifs <;> omega

/-- Concrete instances of `C9_char_type`: an ASCII uppercase letter maps to
4 and a hiragana character maps to 5. -/
theorem C9_char_type_witness :
    get_character_type asciiProps 'A' = 4 ∧
    get_character_type asciiProps 'あ' = 5 :=
  ⟨(C9_char_type asciiProps 'A').2.2.2.2.2.1
      (by decide) (by decide) (by decide) (by decide),
   (C9_char_type asciiProps 'あ').2.2.2.2.2.2.1
      (by decide) (by decide) (by decide) (by decide) (by decide)⟩

/-- C10: `transform` (in its state-passing form) leaves every dictionary and
both configuration flags of the preprocessor unchanged: the method reads the
dictionaries but never writes them, so they can only grow during `fit`. -/
theorem C10_transform_frame (p : StaticPreprocessor) (u : CharProps)
    (tok : String → List (String × String)) (X : List (List String))
    (y : Option (List (List String))) :
    (p.transformS u tok X y).1.word_dic = p.word_dic ∧
    (p.transformS u tok X y).1.char_dic = p.char_dic ∧
    (p.transformS u tok X y).1.pos_dic = p.pos_dic ∧
    (p.transformS u tok X y).1.label_dic = p.label_dic ∧
    (p.transformS u tok X y).1.bies_dic = p.bies_dic ∧
    (p.transformS u tok X y).1.char_type_dic = p.char_type_dic ∧
    (p.transformS u tok X y).1.lowercase = p.lowercase ∧
    (p.transformS u tok X y).1.num_norm = p.num_norm :=
  ⟨rfl, rfl, rfl, rfl, rfl, rfl, rfl, rfl⟩

theorem flatten_map_length_sum (tokens : List (String × String))
    (F : String × String → List Nat)
    (hF : ∀ wp ∈ tokens, (F wp).length = wp.1.length) :
    ((tokens.map F).flatten).length = (tokens.map (fun wp => wp.1.length)).sum := by
  rw [List.length_flatten, List.map_map]
  congr 1
  exact List.map_congr_left hF

/-- C1: for every document, the per-document body of `transform` produces
five per-character integer arrays of equal length, equal to the total
character count of the normalized tokenized text (the sum of the lengths of
the tokens), with the word's ID and its POS tag's ID each repeated once per
character of the word. -/
theorem C1_five_arrays_aligned (p : StaticPreprocessor) (u : CharProps)
    (tok : String → List (String × String)) (doc : List String)
    {uw uc up : Nat}
    (huw : dlookup p.word_dic UNK = some uw)
    (huc : dlookup p.char_dic UNK = some uc)
    (hup : dlookup p.pos_dic UNK = some up)
    (hb : p.bies_dic = biesStd)
    (hne : ∀ wp ∈ tok (p.normalize doc), wp.1.length ≠ 0) :
    ∃ f : DocFeatures,
      transformDoc p u (tok (p.normalize doc)) = some f ∧
      f.word_ids.length =
        ((tok (p.normalize doc)).map (fun wp => wp.1.length)).sum ∧
      f.char_ids.length = f.word_ids.length ∧
      f.bies_ids.length = f.word_ids.length ∧
      f.pos_ids.length = f.word_ids.length ∧
      f.char_types.length = f.word_ids.length ∧
      f.word_ids = ((tok (p.normalize doc)).map (fun wp =>
        List.replicate wp.1.length (dget p.word_dic wp.1 uw))).flatten ∧
      f.pos_ids = ((tok (p.normalize doc)).map (fun wp =>
        List.replicate wp.1.length (dget p.pos_dic wp.2 up))).flatten := by
  have hW := flatten_map_length_sum (tok (p.normalize doc))
    (fun wp => List.replicate wp.1.length (dget p.word_dic wp.1 uw))
    (fun wp _ => List.length_replicate _ _)
  have hC := flatten_map_length_sum (tok (p.normalize doc))
    (fun wp => wp.1.data.map (fun c => dget p.char_dic (String.mk [c]) uc))
    (fun wp _ => by rw [List.length_map]; rfl)
  have hB := flatten_map_length_sum (tok (p.normalize doc))
    (fun wp => biesList wp.1.length)
    (fun wp hwp => biesList_length (hne wp hwp))
  have hP := flatten_map_length_sum (tok (p.normalize doc))
    (fun wp => List.replicate wp.1.length (dget p.pos_dic wp.2 up))
    (fun wp _ => List.length_replicate _ _)
  have hT := flatten_map_length_sum (tok (p.normalize doc))
    (fun wp => get_char_types u wp.1)
    (fun wp _ => by unfold get_char_types; rw [List.length_map]; rfl)
  exact ⟨_, transformDoc_spec p u (tok (p.normalize doc)) huw huc hup hb hne,
    hW, hC.trans hW.symm, hB.trans hW.symm, hP.trans hW.symm, hT.trans hW.symm,
    rfl, rfl⟩

/-- Concrete instance of `C1_five_arrays_aligned`: one document, one
two-character token. -/
theorem C1_five_arrays_aligned_witness :
    ∃ f : DocFeatures,
      transformDoc (StaticPreprocessor.init true true) asciiProps
        ((fun s => [(s, "n")])
          ((StaticPreprocessor.init true true).normalize ["ab"])) = some f ∧
      f.word_ids.length =
        (((fun s => [(s, "n")])
          ((StaticPreprocessor.init true true).normalize ["ab"])).map
            (fun wp => wp.1.length)).sum ∧
      f.char_ids.length = f.word_ids.length ∧
      f.bies_ids.length = f.word_ids.length ∧
      f.pos_ids.length = f.word_ids.length ∧
      f.char_types.length = f.word_ids.length ∧
      f.word_ids = (((fun s => [(s, "n")])
        ((StaticPreprocessor.init true true).normalize ["ab"])).map (fun wp =>
          List.replicate wp.1.length
            (dget (StaticPreprocessor.init true true).word_dic wp.1 1))).flatten ∧
      f.pos_ids = (((fun s => [(s, "n")])
        ((StaticPreprocessor.init true true).normalize ["ab"])).map (fun wp =>
          List.replicate wp.1.length
            (dget (StaticPreprocessor.init true true).pos_dic wp.2 1))).flatten :=
  C1_five_arrays_aligned (StaticPreprocessor.init true true) asciiProps
    (fun s => [(s, "n")]) ["ab"]
    (show dlookup (StaticPreprocessor.init true true).word_dic UNK = some 1 by decide)
    (show dlookup (StaticPreprocessor.init true true).char_dic UNK = some 1 by decide)
    (show dlookup (StaticPreprocessor.init true true).pos_dic UNK = some 1 by decide)
    rfl (by decide)

/-- C3: on a fitted preprocessor, an unknown word, character or POS tag at
transform time is mapped to the reserved unknown-sentinel ID 1 and
`transform` never fails because of it, whereas a label absent from the label
dictionary makes `transform` fail with a lookup error (`none`). -/
theorem C3_unknown_handling (lc nn : Bool)
    (tokF tok : String → List (String × String)) (XF : List (List String))
    (ord : List String) (u : CharProps) (X : List (List String))
    (p : StaticPreprocessor)
    (hp : p = (StaticPreprocessor.init lc nn).fit tokF XF ord)
    (hne : ∀ doc ∈ X, ∀ wp ∈ tok (p.normalize doc), wp.1.length ≠ 0) :
    ((p.transform u tok X none).isSome = true) ∧
    (∀ w, dlookup p.word_dic w = none → getWithUnk p.word_dic w = some 1) ∧
    (∀ c : Char, dlookup p.char_dic (String.mk [c]) = none →
      getWithUnk p.char_dic (String.mk [c]) = some 1) ∧
    (∀ ps, dlookup p.pos_dic ps = none → getWithUnk p.pos_dic ps = some 1) ∧
    (∀ y : List (List String),
      (∃ sent ∈ y, ∃ t ∈ sent, dlookup p.label_dic t = none) →
      p.transform u tok X (some y) = none) := by
  have hfit := fit_lookups lc nn tokF XF ord
  have huw : dlookup p.word_dic UNK = some 1 := by rw [hp]; exact hfit.1
  have huc : dlookup p.char_dic UNK = some 1 := by rw [hp]; exact hfit.2.1
  have hup : dlookup p.pos_dic UNK = some 1 := by rw [hp]; exact hfit.2.2.1
  have hb : p.bies_dic = biesStd := by rw [hp]; exact hfit.2.2.2.1
  have hdocs := mapM_eq_map (fun doc => transformDoc p u (tok (p.normalize doc)))
    (fun doc =>
      (⟨((tok (p.normalize doc)).map (fun wp =>
           List.replicate wp.1.length (dget p.word_dic wp.1 1))).flatten,
        ((tok (p.normalize doc)).map (fun wp =>
           wp.1.data.map (fun c => dget p.char_dic (String.mk [c]) 1))).flatten,
        ((tok (p.normalize doc)).map (fun wp => biesList wp.1.length)).flatten,
        ((tok (p.normalize doc)).map (fun wp =>
           List.replicate wp.1.length (dget p.pos_dic wp.2 1))).flatten,
        ((tok (p.normalize doc)).map (fun wp =>
           get_char_types u wp.1)).flatten⟩ : DocFeatures)) X
    (fun doc hdoc =>
      transformDoc_spec p u (tok (p.normalize doc)) huw huc hup hb (hne doc hdoc))
  refine ⟨?_, ?_, ?_, ?_, ?_⟩
  · unfold StaticPreprocessor.transform
    rw [hdocs]
    simp
  · intro w hw
    simp [getWithUnk, huw, dget, hw]
  · intro c hc
    simp [getWithUnk, huc, dget, hc]
  · intro ps hps
    simp [getWithUnk, hup, dget, hps]
  · rintro y ⟨sent, hsent, t, ht, hlab⟩
    unfold StaticPreprocessor.transform
    rw [hdocs]
    have hsentnone : sent.mapM (fun t2 => dlookup p.label_dic t2) = none :=
      mapM_none _ sent ht hlab
    have hynone : y.mapM (fun sent2 =>
        sent2.mapM (fun t2 => dlookup p.label_dic t2)) = none :=
      mapM_none _ y hsent hsentnone
    have hyloop : List.mapM.loop (fun sent2 => List.mapM.loop
        (fun t2 => dlookup p.label_dic t2) sent2 []) y [] = none := hynone
    simp [hynone, hyloop]

/-- Concrete instance of `C3_unknown_handling`: a preprocessor fitted on one
document and one label. -/
theorem C3_unknown_handling_witness :
    (((((StaticPreprocessor.init true true).fit (fun s => [(s, "n")]) [["ab"]]
        ["O"])).transform asciiProps (fun s => [(s, "n")]) [["xy"]]
        none).isSome = true) ∧
    (∀ w, dlookup ((StaticPreprocessor.init true true).fit (fun s => [(s, "n")])
        [["ab"]] ["O"]).word_dic w = none →
      getWithUnk ((StaticPreprocessor.init true true).fit (fun s => [(s, "n")])
        [["ab"]] ["O"]).word_dic w = some 1) ∧
    (∀ c : Char, dlookup ((StaticPreprocessor.init true true).fit
        (fun s => [(s, "n")]) [["ab"]] ["O"]).char_dic (String.mk [c]) = none →
      getWithUnk ((StaticPreprocessor.init true true).fit (fun s => [(s, "n")])
        [["ab"]] ["O"]).char_dic (String.mk [c]) = some 1) ∧
    (∀ ps, dlookup ((StaticPreprocessor.init true true).fit (fun s => [(s, "n")])
        [["ab"]] ["O"]).pos_dic ps = none →
      getWithUnk ((StaticPreprocessor.init true true).fit (fun s => [(s, "n")])
        [["ab"]] ["O"]).pos_dic ps = some 1) ∧
    (∀ y : List (List String),
      (∃ sent ∈ y, ∃ t ∈ sent, dlookup ((StaticPreprocessor.init true true).fit
        (fun s => [(s, "n")]) [["ab"]] ["O"]).label_dic t = none) →
      ((StaticPreprocessor.init true true).fit (fun s => [(s, "n")]) [["ab"]]
        ["O"]).transform asciiProps (fun s => [(s, "n")]) [["xy"]]
        (some y) = none) :=
  C3_unknown_handling true true (fun s => [(s, "n")]) (fun s => [(s, "n")])
    [["ab"]] ["O"] asciiProps [["xy"]] _ rfl (by decide)

/-- C4 counterexample: fitting with the label `'<PAD>'` itself (a legal
input to `fit`) overwrites the padding sentinel's entry, leaving the label
dictionary with `PAD` at ID 1 and no key at ID 0 — neither contiguous from 0
nor with the PAD sentinel at ID 0. -/
theorem C4_cex_pad_label :
    IsSetEnum [PAD] [[PAD]] ∧
    ((StaticPreprocessor.init true true).fit (fun _ => []) [] [PAD]).label_dic =
      [(PAD, 1)] ∧
    vals ((StaticPreprocessor.init true true).fit (fun _ => []) []
        [PAD]).label_dic ≠
      List.range (dlen ((StaticPreprocessor.init true true).fit (fun _ => []) []
        [PAD]).label_dic) := by
  refine ⟨⟨by decide, ?_⟩, by decide, by decide⟩
  intro t
  simp

/-- C4 amended: after one `fit`, each of the word, character, POS and label
dictionaries has pairwise-distinct keys with IDs exactly `0, 1, 2, ...` in
insertion order (injective and contiguous from 0) and the PAD sentinel at
ID 0 — provided no label equals the literal PAD sentinel string `'<PAD>'`
(the unguarded `label_dic[t] = len(label_dic)` would overwrite it). -/
theorem C4_dict_invariants (lc nn : Bool)
    (tok : String → List (String × String)) (X : List (List String))
    (y : List (List String)) (ord : List String) (p : StaticPreprocessor)
    (hp : p = (StaticPreprocessor.init lc nn).fit tok X ord)
    (hord : IsSetEnum ord y) (hpad : PAD ∉ y.flatten) :
    (vals p.word_dic = List.range (dlen p.word_dic) ∧
      (keys p.word_dic).Nodup ∧ dlookup p.word_dic PAD = some 0) ∧
    (vals p.char_dic = List.range (dlen p.char_dic) ∧
      (keys p.char_dic).Nodup ∧ dlookup p.char_dic PAD = some 0) ∧
    (vals p.pos_dic = List.range (dlen p.pos_dic) ∧
      (keys p.pos_dic).Nodup ∧ dlookup p.pos_dic PAD = some 0) ∧
    (vals p.label_dic = List.range (dlen p.label_dic) ∧
      (keys p.label_dic).Nodup ∧ dlookup p.label_dic PAD = some 0) := by
  have hgq := foldl_fitDoc_good tok X (StaticPreprocessor.init lc nn)
    goodDict_init2 goodDict_init2 goodDict_init2
  have hframe := foldl_fitDoc_frame tok X (StaticPreprocessor.init lc nn)
  have hlook := fit_lookups lc nn tok X ord
  have hfresh : ∀ t ∈ ord,
      t ∉ keys (X.foldl (fitDoc tok) (StaticPreprocessor.init lc nn)).label_dic := by
    intro t ht hmem
    rw [hframe.2.2.2.1] at hmem
    have htp : t = PAD := by
      simpa [keys, StaticPreprocessor.init] using hmem
    subst htp
    exact hpad ((hord.2 PAD).mp ht)
  have hlabgood : GoodDict
      (X.foldl (fitDoc tok) (StaticPreprocessor.init lc nn)).label_dic := by
    rw [hframe.2.2.2.1]
    exact goodDict_init1
  have hlab := foldl_labelStep ord
    (X.foldl (fitDoc tok) (StaticPreprocessor.init lc nn)).label_dic
    hlabgood hord.1 hfresh
  have hlabpad : dlookup
      (X.foldl (fitDoc tok) (StaticPreprocessor.init lc nn)).label_dic PAD =
      some 0 := by
    rw [hframe.2.2.2.1]
    rfl
  subst hp
  refine ⟨⟨hgq.1.1, hgq.1.2, hlook.2.2.2.2.1⟩,
    ⟨hgq.2.1.1, hgq.2.1.2, hlook.2.2.2.2.2.1⟩,
    ⟨hgq.2.2.1, hgq.2.2.2, hlook.2.2.2.2.2.2⟩,
    ⟨hlab.1.1, hlab.1.2, hlab.2.2.dlookup_eq hlabpad⟩⟩

/-- Concrete instance of `C4_dict_invariants`: one document, one label. -/
theorem C4_dict_invariants_witness :
    (vals ((StaticPreprocessor.init true true).fit (fun s => [(s, "n")])
        [["ab"]] ["O"]).word_dic =
      List.range (dlen ((StaticPreprocessor.init true true).fit
        (fun s => [(s, "n")]) [["ab"]] ["O"]).word_dic) ∧
      (keys ((StaticPreprocessor.init true true).fit (fun s => [(s, "n")])
        [["ab"]] ["O"]).word_dic).Nodup ∧
      dlookup ((StaticPreprocessor.init true true).fit (fun s => [(s, "n")])
        [["ab"]] ["O"]).word_dic PAD = some 0) ∧
    (vals ((StaticPreprocessor.init true true).fit (fun s => [(s, "n")])
        [["ab"]] ["O"]).char_dic =
      List.range (dlen ((StaticPreprocessor.init true true).fit
        (fun s => [(s, "n")]) [["ab"]] ["O"]).char_dic) ∧
      (keys ((StaticPreprocessor.init true true).fit (fun s => [(s, "n")])
        [["ab"]] ["O"]).char_dic).Nodup ∧
      dlookup ((StaticPreprocessor.init true true).fit (fun s => [(s, "n")])
        [["ab"]] ["O"]).char_dic PAD = some 0) ∧
    (vals ((StaticPreprocessor.init true true).fit (fun s => [(s, "n")])
        [["ab"]] ["O"]).pos_dic =
      List.range (dlen ((StaticPreprocessor.init true true).fit
        (fun s => [(s, "n")]) [["ab"]] ["O"]).pos_dic) ∧
      (keys ((StaticPreprocessor.init true true).fit (fun s => [(s, "n")])
        [["ab"]] ["O"]).pos_dic).Nodup ∧
      dlookup ((StaticPreprocessor.init true true).fit (fun s => [(s, "n")])
        [["ab"]] ["O"]).pos_dic PAD = some 0) ∧
    (vals ((StaticPreprocessor.init true true).fit (fun s => [(s, "n")])
        [["ab"]] ["O"]).label_dic =
      List.range (dlen ((StaticPreprocessor.init true true).fit
        (fun s => [(s, "n")]) [["ab"]] ["O"]).label_dic) ∧
      (keys ((StaticPreprocessor.init true true).fit (fun s => [(s, "n")])
        [["ab"]] ["O"]).label_dic).Nodup ∧
      dlookup ((StaticPreprocessor.init true true).fit (fun s => [(s, "n")])
        [["ab"]] ["O"]).label_dic PAD = some 0) :=
  C4_dict_invariants true true (fun s => [(s, "n")]) [["ab"]] [["O"]] ["O"] _
    rfl ⟨by decide, by intro t; simp⟩ (by decide)

/-- C5 counterexample: the label dictionary is built by iterating over a
Python `set`, whose enumeration order is unspecified.  Both `["a", "b"]` and
`["b", "a"]` are valid enumerations of the label set of `y = [["a", "b"]]`,
and they give the label `"a"` (the first-occurring one) the IDs 1 and 2
respectively — the assigned ID is not determined by first-occurrence order. -/
theorem C5_cex_label_set_order :
    IsSetEnum ["a", "b"] [["a", "b"]] ∧
    IsSetEnum ["b", "a"] [["a", "b"]] ∧
    dlookup ((StaticPreprocessor.init true true).fit (fun _ => []) []
      ["a", "b"]).label_dic "a" = some 1 ∧
    dlookup ((StaticPreprocessor.init true true).fit (fun _ => []) []
      ["b", "a"]).label_dic "a" = some 2 := by
  refine ⟨⟨by decide, fun t => by simp⟩, ⟨by decide, fun t => ?_⟩,
    by decide, by decide⟩
  constructor
  · intro h
    rcases List.mem_cons.mp h with h | h
    · simp [h]
    · simp at h
      simp [h]
  · intro h
    rcases List.mem_cons.mp h with h | h
    · simp [h]
    · simp at h
      simp [h]

/-- C5 amended: during `fit` the word, character and POS dictionaries grow
in first-occurrence order over the token stream of the documents (with IDs
contiguous in that order), provided no token is the literal sentinel string
`'<PAD>'` or `'<UNK>'`; the label dictionary instead grows in the iteration
order of the Python `set` of labels, which is unspecified and need not be
first-occurrence order. -/
theorem C5_first_occurrence_order (lc nn : Bool)
    (tok : String → List (String × String)) (X : List (List String))
    (y : List (List String)) (ord : List String) (p : StaticPreprocessor)
    (hp : p = (StaticPreprocessor.init lc nn).fit tok X ord)
    (hord : IsSetEnum ord y) (hpad : PAD ∉ y.flatten)
    (hsent : ∀ doc ∈ X,
      ∀ wp ∈ tok ((StaticPreprocessor.init lc nn).normalize doc),
        wp.1 ≠ PAD ∧ wp.1 ≠ UNK) :
    keys p.word_dic = foldOcc [PAD, UNK]
      ((X.map (fun doc =>
        (tok ((StaticPreprocessor.init lc nn).normalize doc)).map
          Prod.fst)).flatten) ∧
    keys p.char_dic = foldOcc [PAD, UNK]
      ((X.map (fun doc =>
        (tok ((StaticPreprocessor.init lc nn).normalize doc)).flatMap
          (fun wp => wp.1.data.map (fun c => String.mk [c])))).flatten) ∧
    keys p.pos_dic = foldOcc [PAD, UNK]
      ((X.map (fun doc =>
        (tok ((StaticPreprocessor.init lc nn).normalize doc)).map
          Prod.snd)).flatten) ∧
    keys p.label_dic = PAD :: ord ∧
    vals p.word_dic = List.range (dlen p.word_dic) ∧
    vals p.char_dic = List.range (dlen p.char_dic) ∧
    vals p.pos_dic = List.range (dlen p.pos_dic) ∧
    vals p.label_dic = List.range (dlen p.label_dic) := by
  have hcov0 : CharCover (StaticPreprocessor.init lc nn).word_dic
      (StaticPreprocessor.init lc nn).char_dic := by
    intro w hw
    have hw2 : w = PAD ∨ w = UNK := by
      simpa [keys, StaticPreprocessor.init] using hw
    rcases hw2 with h | h
    · exact Or.inl h
    · exact Or.inr (Or.inl h)
  have hkeys := foldl_fitDoc_keys tok
    ((StaticPreprocessor.init lc nn).normalize) X hsent
    (StaticPreprocessor.init lc nn) hcov0 (fun _ => rfl)
  have hgq := foldl_fitDoc_good tok X (StaticPreprocessor.init lc nn)
    goodDict_init2 goodDict_init2 goodDict_init2
  have hframe := foldl_fitDoc_frame tok X (StaticPreprocessor.init lc nn)
  have hfresh : ∀ t ∈ ord,
      t ∉ keys (X.foldl (fitDoc tok) (StaticPreprocessor.init lc nn)).label_dic := by
    intro t ht hmem
    rw [hframe.2.2.2.1] at hmem
    have htp : t = PAD := by
      simpa [keys, StaticPreprocessor.init] using hmem
    subst htp
    exact hpad ((hord.2 PAD).mp ht)
  have hlabgood : GoodDict
      (X.foldl (fitDoc tok) (StaticPreprocessor.init lc nn)).label_dic := by
    rw [hframe.2.2.2.1]
    exact goodDict_init1
  have hlab := foldl_labelStep ord
    (X.foldl (fitDoc tok) (StaticPreprocessor.init lc nn)).label_dic
    hlabgood hord.1 hfresh
  have hlabkeys :
      keys (X.foldl (fitDoc tok) (StaticPreprocessor.init lc nn)).label_dic =
        [PAD] := by
    rw [hframe.2.2.2.1]
    rfl
  subst hp
  refine ⟨hkeys.1, hkeys.2.1, hkeys.2.2, ?_, hgq.1.1, hgq.2.1.1, hgq.2.2.1,
    hlab.1.1⟩
  show keys (ord.foldl labelStep
    (X.foldl (fitDoc tok) (StaticPreprocessor.init lc nn)).label_dic) = PAD :: ord
  rw [hlab.2.1, hlabkeys]
  rfl

/-- Concrete instance of `C5_first_occurrence_order`: one document with one
token, one label. -/
theorem C5_first_occurrence_order_witness :
    keys ((StaticPreprocessor.init true true).fit (fun s => [(s, "n")])
        [["ab"]] ["O"]).word_dic = foldOcc [PAD, UNK]
      (([["ab"]].map (fun doc =>
        ((fun s => [(s, "n")])
          ((StaticPreprocessor.init true true).normalize doc)).map
            Prod.fst)).flatten) ∧
    keys ((StaticPreprocessor.init true true).fit (fun s => [(s, "n")])
        [["ab"]] ["O"]).char_dic = foldOcc [PAD, UNK]
      (([["ab"]].map (fun doc =>
        ((fun s => [(s, "n")])
          ((StaticPreprocessor.init true true).normalize doc)).flatMap
            (fun wp => wp.1.data.map (fun c => String.mk [c])))).flatten) ∧
    keys ((StaticPreprocessor.init true true).fit (fun s => [(s, "n")])
        [["ab"]] ["O"]).pos_dic = foldOcc [PAD, UNK]
      (([["ab"]].map (fun doc =>
        ((fun s => [(s, "n")])
          ((StaticPreprocessor.init true true).normalize doc)).map
            Prod.snd)).flatten) ∧
    keys ((StaticPreprocessor.init true true).fit (fun s => [(s, "n")])
        [["ab"]] ["O"]).label_dic = PAD :: ["O"] ∧
    vals ((StaticPreprocessor.init true true).fit (fun s => [(s, "n")])
        [["ab"]] ["O"]).word_dic =
      List.range (dlen ((StaticPreprocessor.init true true).fit
        (fun s => [(s, "n")]) [["ab"]] ["O"]).word_dic) ∧
    vals ((StaticPreprocessor.init true true).fit (fun s => [(s, "n")])
        [["ab"]] ["O"]).char_dic =
      List.range (dlen ((StaticPreprocessor.init true true).fit
        (fun s => [(s, "n")]) [["ab"]] ["O"]).char_dic) ∧
    vals ((StaticPreprocessor.init true true).fit (fun s => [(s, "n")])
        [["ab"]] ["O"]).pos_dic =
      List.range (dlen ((StaticPreprocessor.init true true).fit
        (fun s => [(s, "n")]) [["ab"]] ["O"]).pos_dic) ∧
    vals ((StaticPreprocessor.init true true).fit (fun s => [(s, "n")])
        [["ab"]] ["O"]).label_dic =
      List.range (dlen ((StaticPreprocessor.init true true).fit
        (fun s => [(s, "n")]) [["ab"]] ["O"]).label_dic) :=
  C5_first_occurrence_order true true (fun s => [(s, "n")]) [["ab"]] [["O"]]
    ["O"] _ rfl ⟨by decide, by intro t; simp⟩ (by decide) (by decide)

/-! ### Inversion of an injective dictionary -/

theorem find_by_val {l : Dict} (hn : (vals l).Nodup) {k : String} {v : Nat}
    (hmem : (k, v) ∈ l) : l.find? (fun kv => kv.2 == v) = some (k, v) := by
  induction l with
  | nil => simp at hmem
  | cons a t ih =>
      by_cases hav : a.2 = v
      · have ha : a = (k, v) := by
          rcases List.mem_cons.mp hmem with h | h
          · exact h.symm
          · exfalso
            have hv2 : v ∈ vals t := List.mem_map_of_mem Prod.snd h
            rw [← hav] at hv2
            exact (List.nodup_cons.mp hn).1 hv2
        rw [List.find?_cons_of_pos]
        · rw [ha]
        · simp [hav]
      · have hmem2 : (k, v) ∈ t := by
          rcases List.mem_cons.mp hmem with h | h
          · exfalso
            rw [← h] at hav
            exact hav rfl
          · exact h
        rw [List.find?_cons_of_neg]
        · exact ih (List.nodup_cons.mp hn).2 hmem2
        · simp [hav]

theorem inv_of_lookup {d : Dict} (hg : GoodDict d) {k : String} {v : Nat}
    (h : dlookup d k = some v) :
    (d.reverse.find? (fun kv => kv.2 == v)).map (fun kv => kv.1) = some k := by
  have hvn : (vals d).Nodup := by
    rw [hg.1]
    exact List.nodup_range _
  have hvnr : (vals d.reverse).Nodup := by
    unfold vals
    rw [List.map_reverse]
    exact List.nodup_reverse.mpr hvn
  have hmem : (k, v) ∈ d.reverse := List.mem_reverse.mpr (dlookup_mem h)
  rw [find_by_val hvnr hmem]
  rfl

theorem mapM_inverse_chars {d : Dict} (hg : GoodDict d) (u0 : Nat) :
    ∀ chars : List Char, (∀ c ∈ chars, String.mk [c] ∈ keys d) →
      (chars.map (fun c => dget d (String.mk [c]) u0)).mapM (fun i =>
        (d.reverse.find? (fun kv => kv.2 == i)).map (fun kv => kv.1)) =
      some (chars.map (fun c => String.mk [c])) := by
  intro chars
  induction chars with
  | nil =>
      intro _
      simp only [List.map_nil, List.mapM_nil]
      rfl
  | cons c t ih =>
      intro h
      obtain ⟨v, hv⟩ := dlookup_of_mem_keys (h c (by simp))
      have hd : dget d (String.mk [c]) u0 = v := by
        unfold dget
        rw [hv]
        rfl
      rw [List.map_cons, List.mapM_cons, hd, inv_of_lookup hg hv,
        ih (fun x hx => h x (by simp [hx]))]
      rfl

/-- C7 counterexample: on a preprocessor fitted on the document `"ab"`, the
document `"az"` transforms to character IDs `[2, 1]` (the unseen `'z'`
becomes the UNK sentinel ID 1), and `inverse_transform` decodes them to
`["a", "<UNK>"]`, which is not the normalized tokenized character sequence
`["a", "z"]` of that document. -/
theorem C7_cex_unknown_char :
    (transformDoc ((StaticPreprocessor.init true true).fit (fun s => [(s, "n")])
        [["ab"]] ["O"]) asciiProps
        ((fun s => [(s, "n")])
          (((StaticPreprocessor.init true true).fit (fun s => [(s, "n")])
            [["ab"]] ["O"]).normalize ["az"]))).map DocFeatures.char_ids =
      some [2, 1] ∧
    ((StaticPreprocessor.init true true).fit (fun s => [(s, "n")]) [["ab"]]
      ["O"]).inverse_transform [[2, 1]] = some [["a", UNK]] ∧
    ((((StaticPreprocessor.init true true).fit (fun s => [(s, "n")]) [["ab"]]
      ["O"]).normalize ["az"]).data.map (fun c => String.mk [c])) =
      ["a", "z"] ∧
    (["a", UNK] : List String) ≠ ["a", "z"] := by
  decide

/-- C7 amended: on a fitted preprocessor, `inverse_transform` applied to the
character-ID array produced by `transform` recovers exactly the characters
of the document's normalized tokenized text, provided every such character
is present in the character dictionary (an out-of-vocabulary character is
encoded as the UNK sentinel and decodes to `'<UNK>'` instead). -/
theorem C7_round_trip (lc nn : Bool)
    (tokF tok : String → List (String × String)) (XF : List (List String))
    (ord : List String) (u : CharProps) (doc : List String)
    (p : StaticPreprocessor)
    (hp : p = (StaticPreprocessor.init lc nn).fit tokF XF ord)
    (hne : ∀ wp ∈ tok (p.normalize doc), wp.1.length ≠ 0)
    (hchars : ∀ wp ∈ tok (p.normalize doc), ∀ c ∈ wp.1.data,
      String.mk [c] ∈ keys p.char_dic) :
    ∃ f : DocFeatures,
      transformDoc p u (tok (p.normalize doc)) = some f ∧
      p.inverse_transform [f.char_ids] =
        some [((tok (p.normalize doc)).flatMap
          (fun wp => wp.1.data)).map (fun c => String.mk [c])] := by
  have hfit := fit_lookups lc nn tokF XF ord
  have huw : dlookup p.word_dic UNK = some 1 := by rw [hp]; exact hfit.1
  have huc : dlookup p.char_dic UNK = some 1 := by rw [hp]; exact hfit.2.1
  have hup : dlookup p.pos_dic UNK = some 1 := by rw [hp]; exact hfit.2.2.1
  have hb : p.bies_dic = biesStd := by rw [hp]; exact hfit.2.2.2.1
  have hgood : GoodDict p.char_dic := by
    rw [hp]
    exact (foldl_fitDoc_good tokF XF (StaticPreprocessor.init lc nn)
      goodDict_init2 goodDict_init2 goodDict_init2).2.1
  refine ⟨_, transformDoc_spec p u (tok (p.normalize doc)) huw huc hup hb hne, ?_⟩
  have hflat : ((tok (p.normalize doc)).map (fun wp =>
      wp.1.data.map (fun c => dget p.char_dic (String.mk [c]) 1))).flatten =
      ((tok (p.normalize doc)).flatMap (fun wp => wp.1.data)).map
        (fun c => dget p.char_dic (String.mk [c]) 1) := by
    rw [List.map_flatMap, List.flatMap_def]
  have hmem : ∀ c ∈ (tok (p.normalize doc)).flatMap (fun wp => wp.1.data),
      String.mk [c] ∈ keys p.char_dic := by
    intro c hc
    obtain ⟨wp, hwp, hcwp⟩ := List.mem_flatMap.mp hc
    exact hchars wp hwp c hcwp
  have hinner := mapM_inverse_chars hgood 1
    ((tok (p.normalize doc)).flatMap (fun wp => wp.1.data)) hmem
  show StaticPreprocessor.inverse_transform p [_] = _
  unfold StaticPreprocessor.inverse_transform
  rw [List.mapM_cons]
  show Option.bind (((tok (p.normalize doc)).map (fun wp =>
      wp.1.data.map (fun c => dget p.char_dic (String.mk [c]) 1))).flatten.mapM
        (fun i => (p.char_dic.reverse.find? (fun kv => kv.2 == i)).map
          (fun kv => kv.1))) _ = _
  rw [hflat, hinner]
  rfl

/-- Concrete instance of `C7_round_trip`: transform and invert the training
document itself. -/
theorem C7_round_trip_witness :
    ∃ f : DocFeatures,
      transformDoc ((StaticPreprocessor.init true true).fit (fun s => [(s, "n")])
          [["ab"]] ["O"]) asciiProps
        ((fun s => [(s, "n")])
          (((StaticPreprocessor.init true true).fit (fun s => [(s, "n")])
            [["ab"]] ["O"]).normalize ["ab"])) = some f ∧
      ((StaticPreprocessor.init true true).fit (fun s => [(s, "n")]) [["ab"]]
        ["O"]).inverse_transform [f.char_ids] =
        some [(((fun s => [(s, "n")])
          (((StaticPreprocessor.init true true).fit (fun s => [(s, "n")])
            [["ab"]] ["O"]).normalize ["ab"])).flatMap
              (fun wp => wp.1.data)).map (fun c => String.mk [c])] :=
  C7_round_trip true true (fun s => [(s, "n")]) (fun s => [(s, "n")]) [["ab"]]
    ["O"] asciiProps ["ab"] _ rfl (by decide) (by decide)

/-! ### Padding and one-hot lemmas for the `DynamicPreprocessor` -/

theorem foldl_max_init (l : List Nat) : ∀ a : Nat, a ≤ l.foldl max a := by
  induction l with
  | nil => intro a; exact Nat.le_refl a
  | cons b t ih =>
      intro a
      exact le_trans (Nat.le_max_left a b) (ih (max a b))

theorem foldl_max_mem (l : List Nat) : ∀ (a : Nat), ∀ x ∈ l, x ≤ l.foldl max a := by
  induction l with
  | nil => intro a x hx; simp at hx
  | cons b t ih =>
      intro a x hx
      rcases List.mem_cons.mp hx with h | h
      · subst h
        exact le_trans (Nat.le_max_right a x) (foldl_max_init t (max a x))
      · exact ih (max a b) x h

theorem pad_sequences_eq (seqs : List (List Nat)) (hne : seqs ≠ []) :
    pad_sequences seqs = some (seqs.map (fun s =>
      s ++ List.replicate (((seqs.map List.length).foldl max 0) - s.length) 0)) := by
  cases seqs with
  | nil => exact absurd rfl hne
  | cons a t => rfl

theorem to_categorical_eq (row : List Nat) (n : Nat)
    (h : ∀ i ∈ row, i < n) :
    to_categorical row n = some (row.map (fun i =>
      (List.range n).map (fun j => if j = i then 1 else 0))) :=
  mapM_eq_map _ _ row (fun i hi => if_pos (h i hi))

theorem lengths_le_max {rows base : List (List Nat)}
    (h : rows.map List.length = base.map List.length) :
    ∀ s ∈ rows, s.length ≤ (base.map List.length).foldl max 0 := by
  intro s hs
  apply foldl_max_mem
  rw [← h]
  exact List.mem_map_of_mem _ hs

theorem padded_row_length {M : Nat} {rows : List (List Nat)}
    (h : ∀ s ∈ rows, s.length ≤ M) :
    ∀ r ∈ rows.map (fun s => s ++ List.replicate (M - s.length) 0),
      r.length = M := by
  intro r hr
  obtain ⟨s, hs, rfl⟩ := List.mem_map.mp hr
  have := h s hs
  simp only [List.length_append, List.length_replicate]
  omega

theorem map_length_ne_nil {rows base : List (List Nat)}
    (h : rows.map List.length = base.map List.length) (hb : base ≠ []) :
    rows ≠ [] := by
  intro hr
  rw [hr] at h
  apply hb
  cases base with
  | nil => rfl
  | cons x t => simp at h

/-- C8: `DynamicPreprocessor.transform` right-pads each of the five feature
streams with the PAD ID 0 to the batch's maximum document length (never
truncating: every output row is the input row followed by zeros), so each
output tensor has one row per document, all rows of the batch maximum
length; labels are right-padded identically and every label ID becomes a
one-hot vector of width `n_labels`, padded positions receiving the one-hot
vector of the PAD label (ID 0). -/
theorem C8_dynamic_padding (d : DynamicPreprocessor) (X : Batch)
    (y : List (List Nat))
    (hne : X.words ≠ [])
    (hc : X.chars.map List.length = X.words.map List.length)
    (hb : X.bies.map List.length = X.words.map List.length)
    (hp : X.poses.map List.length = X.words.map List.length)
    (ht : X.types.map List.length = X.words.map List.length)
    (hy : y.map List.length = X.words.map List.length)
    (hyn : ∀ row ∈ y, ∀ i ∈ row, i < d.n_labels)
    (h0 : 0 < d.n_labels) :
    d.transform X (some y) = some
      (⟨X.words.map (fun s => s ++ List.replicate
          ((X.words.map List.length).foldl max 0 - s.length) 0),
        X.chars.map (fun s => s ++ List.replicate
          ((X.words.map List.length).foldl max 0 - s.length) 0),
        X.bies.map (fun s => s ++ List.replicate
          ((X.words.map List.length).foldl max 0 - s.length) 0),
        X.poses.map (fun s => s ++ List.replicate
          ((X.words.map List.length).foldl max 0 - s.length) 0),
        X.types.map (fun s => s ++ List.replicate
          ((X.words.map List.length).foldl max 0 - s.length) 0)⟩,
       some ((y.map (fun s => s ++ List.replicate
          ((X.words.map List.length).foldl max 0 - s.length) 0)).map
        (fun row => row.map (fun i => (List.range d.n_labels).map
          (fun j => if j = i then 1 else 0))))) ∧
    (∀ r ∈ X.words.map (fun s => s ++ List.replicate
        ((X.words.map List.length).foldl max 0 - s.length) 0),
      r.length = (X.words.map List.length).foldl max 0) ∧
    (∀ r ∈ X.chars.map (fun s => s ++ List.replicate
        ((X.words.map List.length).foldl max 0 - s.length) 0),
      r.length = (X.words.map List.length).foldl max 0) ∧
    (∀ r ∈ X.bies.map (fun s => s ++ List.replicate
        ((X.words.map List.length).foldl max 0 - s.length) 0),
      r.length = (X.words.map List.length).foldl max 0) ∧
    (∀ r ∈ X.poses.map (fun s => s ++ List.replicate
        ((X.words.map List.length).foldl max 0 - s.length) 0),
      r.length = (X.words.map List.length).foldl max 0) ∧
    (∀ r ∈ X.types.map (fun s => s ++ List.replicate
        ((X.words.map List.length).foldl max 0 - s.length) 0),
      r.length = (X.words.map List.length).foldl max 0) ∧
    (X.chars.length = X.words.length ∧ X.bies.length = X.words.length ∧
      X.poses.length = X.words.length ∧ X.types.length = X.words.length ∧
      y.length = X.words.length) ∧
    (∀ row ∈ (y.map (fun s => s ++ List.replicate
        ((X.words.map List.length).foldl max 0 - s.length) 0)).map
        (fun row => row.map (fun i => (List.range d.n_labels).map
          (fun j => if j = i then 1 else 0))),
      (∀ oh ∈ row, oh.length = d.n_labels) ∧
        row.length = (X.words.map List.length).foldl max 0) := by
  have hcne : X.chars ≠ [] := map_length_ne_nil hc hne
  have hbne : X.bies ≠ [] := map_length_ne_nil hb hne
  have hpne : X.poses ≠ [] := map_length_ne_nil hp hne
  have htne : X.types ≠ [] := map_length_ne_nil ht hne
  have hyne : y ≠ [] := map_length_ne_nil hy hne
  have hw2 := pad_sequences_eq X.words hne
  have hc2 := pad_sequences_eq X.chars hcne
  rw [hc] at hc2
  have hb2 := pad_sequences_eq X.bies hbne
  rw [hb] at hb2
  have hp2 := pad_sequences_eq X.poses hpne
  rw [hp] at hp2
  have ht2 := pad_sequences_eq X.types htne
  rw [ht] at ht2
  have hy2 := pad_sequences_eq y hyne
  rw [hy] at hy2
  have hcat : ∀ row ∈ y.map (fun s => s ++ List.replicate
      ((X.words.map List.length).foldl max 0 - s.length) 0),
      to_categorical row d.n_labels = some (row.map (fun i =>
        (List.range d.n_labels).map (fun j => if j = i then 1 else 0))) := by
    intro row hrow
    obtain ⟨s, hs, rfl⟩ := List.mem_map.mp hrow
    apply to_categorical_eq
    intro i hi
    rcases List.mem_append.mp hi with h | h
    · exact hyn s hs i h
    · rw [List.eq_of_mem_replicate h]
      exact h0
  have hyoh := mapM_eq_map (fun row => to_categorical row d.n_labels)
    (fun row => row.map (fun i => (List.range d.n_labels).map
      (fun j => if j = i then 1 else 0)))
    (y.map (fun s => s ++ List.replicate
      ((X.words.map List.length).foldl max 0 - s.length) 0)) hcat
  refine ⟨?_, padded_row_length (lengths_le_max rfl),
    padded_row_length (lengths_le_max hc), padded_row_length (lengths_le_max hb),
    padded_row_length (lengths_le_max hp), padded_row_length (lengths_le_max ht),
    ⟨?_, ?_, ?_, ?_, ?_⟩, ?_⟩
  · unfold DynamicPreprocessor.transform
    rw [hw2, hc2, hb2, hp2, ht2]
    simp only [Option.some_bind, Option.bind_eq_bind]
    rw [hy2]
    simp only [Option.some_bind, Option.bind_eq_bind]
    rw [hyoh]
    rfl
  · have := congrArg List.length hc
    simpa using this
  · have := congrArg List.length hb
    simpa using this
  · have := congrArg List.length hp
    simpa using this
  · have := congrArg List.length ht
    simpa using this
  · have := congrArg List.length hy
    simpa using this
  · intro row hrow
    obtain ⟨r0, hr0, rfl⟩ := List.mem_map.mp hrow
    constructor
    · intro oh hoh
      obtain ⟨i, _, rfl⟩ := List.mem_map.mp hoh
      simp
    · rw [List.length_map]
      exact padded_row_length (lengths_le_max hy) r0 hr0

/-- Concrete instance of `C8_dynamic_padding`: a batch of two documents of
lengths 1 and 2 with two labels; row 1 is right-padded with 0 to length 2
and the padded label position receives the one-hot vector of the PAD
label. -/
theorem C8_dynamic_padding_witness :
    DynamicPreprocessor.transform ⟨2⟩
      ⟨[[1], [2, 3]], [[1], [2, 3]], [[4], [1, 3]], [[1], [2, 3]],
        [[7], [7, 7]]⟩ (some [[1], [0, 1]]) =
    some (⟨[[1, 0], [2, 3]], [[1, 0], [2, 3]], [[4, 0], [1, 3]],
        [[1, 0], [2, 3]], [[7, 0], [7, 7]]⟩,
      some [[[0, 1], [1, 0]], [[1, 0], [0, 1]]]) :=
  (C8_dynamic_padding ⟨2⟩
    ⟨[[1], [2, 3]], [[1], [2, 3]], [[4], [1, 3]], [[1], [2, 3]],
      [[7], [7, 7]]⟩ [[1], [0, 1]]
    (by decide) rfl rfl rfl rfl rfl (by decide) (by decide)).1
